import Mathlib

/-!
Verification of the Catawiki URL crawler (src/db/oxylab2.py, src/db/db_operations.py)
against its natural-language specification.

The development shallowly embeds the Python source:
- JSON-ish Python values are modelled by the inductive PyVal; Python exceptions
  relevant to the extraction boundary are modelled by PyErr.
- The pure extraction helpers (extract_results_from_oxylabs, extract_total_results,
  extract_link_from_result) are translated line by line, with fallible operations
  returning Except PyErr.
- The storage bridge save_url (db_operations.py) is modelled with explicit
  connection/execution-outcome parameters.
- The crawl driver (crawl, oxylab2.py) is modelled as a deterministic function of
  an environment (the provider responses and storage failure injections) that
  produces a trace of observable events: HTTP probe/page requests, per-page
  completion records (mirroring the per-page log lines) and checkpoint writes.
  Logging text, sleeps and the per-unit statistics table are observationally
  irrelevant to every claim and are not modelled.
-/

namespace Catawiki

/-- Python values as they appear in parsed Oxylabs JSON responses: None, bools,
ints, strings, lists and string-keyed dicts. (Floats do not occur in the fields
this program consumes.) -/
inductive PyVal where
  | none : PyVal
  | bool : Bool → PyVal
  | int : Int → PyVal
  | str : String → PyVal
  | list : List PyVal → PyVal
  | dict : List (String × PyVal) → PyVal

/-- The Python exception classes that can arise in the extraction helpers. -/
inductive PyErr where
  | indexError | keyError | typeError | valueError | attributeError | osError
deriving DecidableEq, Repr

/-- Python truthiness for the modelled values. -/
def truthy : PyVal → Bool
  | .none => false
  | .bool b => b
  | .int n => n != 0
  | .str s => s != ""
  | .list xs => !xs.isEmpty
  | .dict kvs => !kvs.isEmpty

/-- First binding of a key in a dict body (Python dict lookup). -/
def lookupStr : List (String × PyVal) → String → Option PyVal
  | [], _ => Option.none
  | (k, v) :: rest, key => if k == key then some v else lookupStr rest key

/-- Python d.get(key, default): AttributeError when the receiver is not a dict
(ints, strings, lists and None have no .get attribute). -/
def pyGet (v : PyVal) (key : String) (default : PyVal) : Except PyErr PyVal :=
  match v with
  | .dict kvs => .ok ((lookupStr kvs key).getD default)
  | _ => .error .attributeError

/-- Python v[0]: head of a list (IndexError when empty), first character of a
string (IndexError when empty), KeyError for a string-keyed dict, TypeError for
non-subscriptable values. -/
def pyIndex0 : PyVal → Except PyErr PyVal
  | .list [] => .error .indexError
  | .list (x :: _) => .ok x
  | .str s => match s.toList with
      | [] => .error .indexError
      | c :: _ => .ok (.str (String.mk [c]))
  | .dict _ => .error .keyError
  | _ => .error .typeError

/-- Python iteration (for x in v): lists yield elements, strings yield
one-character strings, dicts yield keys; other values raise TypeError. -/
def pyIter : PyVal → Except PyErr (List PyVal)
  | .list xs => .ok xs
  | .str s => .ok (s.toList.map fun c => .str (String.mk [c]))
  | .dict kvs => .ok (kvs.map fun kv => .str kv.1)
  | _ => .error .typeError

/-- Python s.startswith(prefixStr), over the character lists. -/
def listStartsWith : List Char → List Char → Bool
  | _, [] => true
  | [], _ :: _ => false
  | a :: as, b :: bs => a == b && listStartsWith as bs

/-- Python s.startswith(prefixStr). -/
def strStartsWith (s pre : String) : Bool :=
  listStartsWith s.toList pre.toList

/-- Python needle in hay (substring containment). -/
def listContainsSub : List Char → List Char → Bool
  | [], needle => needle.isEmpty
  | a :: t, needle => listStartsWith (a :: t) needle || listContainsSub t needle

/-- Python needle in hay (substring containment). -/
def strContainsSub (hay needle : String) : Bool :=
  listContainsSub hay.toList needle.toList

/-- Python s.replace(",", ""): drop every comma. -/
def stripCommas (s : String) : String :=
  String.mk (s.toList.filter fun c => c != ',')

/-- Python s.split("&")[0]: the prefix before the first ampersand. -/
def takeBeforeAmp (s : String) : String :=
  String.mk (s.toList.takeWhile fun c => c != '&')

/-- Python str(v) for the modelled values, as consumed by int(str(total)):
only the int and str renderings can parse as integers, so the exact repr of
lists/dicts is irrelevant (any bracketed rendering fails int()). -/
def pyStr : PyVal → String
  | .none => "None"
  | .bool true => "True"
  | .bool false => "False"
  | .int n => toString n
  | .str s => s
  | .list _ => "[...]"
  | .dict _ => "[dict]"

/-- Python int(s) on a string: optional sign followed by one or more digits
(surrounding whitespace and digit-group underscores do not occur in the
thousands-separated counts this program sees). Returns Option.none where Python
raises ValueError. -/
def pyIntOfStr (s : String) : Option Int :=
  let core : List Char → Option Nat := fun cs =>
    if cs.isEmpty then Option.none
    else if cs.all Char.isDigit then
      some (cs.foldl (fun a c => a * 10 + (c.toNat - 48)) 0)
    else Option.none
  match s.toList with
  | '-' :: rest => (core rest).map fun n => -(n : Int)
  | '+' :: rest => (core rest).map fun n => (n : Int)
  | cs => (core cs).map fun n => (n : Int)

/-- body of extract_results_from_oxylabs before its except clause
(oxylab2.py lines 131-143):
results = data.get('results', []); if not results: return [];
content = results[0].get('content', \x7b\x7d);
organic = content.get('results', \x7b\x7d).get('organic', []);
return organic. -/
def extractResultsBody (data : PyVal) : Except PyErr PyVal := do
  let results ← pyGet data "results" (.list [])
  if !truthy results then
    return .list []
  let r0 ← pyIndex0 results
  let content ← pyGet r0 "content" (.dict [])
  let res ← pyGet content "results" (.dict [])
  let organic ← pyGet res "organic" (.list [])
  return organic

/-- extract_results_from_oxylabs (oxylab2.py lines 131-146). The except clause
catches exactly (IndexError, KeyError, TypeError) and returns []; any other
exception (notably AttributeError from calling .get on a non-dict) propagates
past the function boundary. -/
def extract_results_from_oxylabs (data : PyVal) : Except PyErr PyVal :=
  match extractResultsBody data with
  | .ok v => .ok v
  | .error e =>
      if e = .indexError ∨ e = .keyError ∨ e = .typeError then .ok (.list [])
      else .error e

/-- body of extract_total_results before its except clause
(oxylab2.py lines 148-163). -/
def extractTotalBody (data : PyVal) : Except PyErr (Option Int) := do
  let results ← pyGet data "results" (.list [])
  if !truthy results then
    return Option.none
  let r0 ← pyIndex0 results
  let content ← pyGet r0 "content" (.dict [])
  let searchInfo ← pyGet content "results" (.dict [])
  let searchInfo ← pyGet searchInfo "search_information" (.dict [])
  let total ← pyGet searchInfo "total_results_count" .none
  if truthy total then
    match pyIntOfStr (stripCommas (pyStr total)) with
    | some n => return some n
    | Option.none => throw .valueError
  else
    return Option.none

/-- extract_total_results (oxylab2.py lines 148-167): commas are stripped from
the rendered count before int(); the except clause catches (IndexError,
KeyError, ValueError, TypeError) and yields None; AttributeError propagates. -/
def extract_total_results (data : PyVal) : Except PyErr (Option Int) :=
  match extractTotalBody data with
  | .ok v => .ok v
  | .error e =>
      if e = .indexError ∨ e = .keyError ∨ e = .valueError ∨ e = .typeError then
        .ok Option.none
      else .error e

/-- extract_link_from_result (oxylab2.py lines 169-175): first of the "url" /
"link" fields that is a string starting with "http"; otherwise "". Calling
.get on a non-dict result record raises AttributeError. -/
def extract_link_from_result (result : PyVal) : Except PyErr String :=
  match result with
  | .dict kvs =>
      let tryKey : String → Option String := fun key =>
        match (lookupStr kvs key).getD .none with
        | .str s => if strStartsWith s "http" then some s else Option.none
        | _ => Option.none
      match tryKey "url" with
      | some s => .ok s
      | Option.none =>
        match tryKey "link" with
        | some s => .ok s
        | Option.none => .ok ""
  | _ => .error .attributeError

/-! ## Configuration constants (oxylab2.py lines 27-32) -/

def RESULTS_PER_PAGE : Nat := 10
def DEFAULT_MAX_START : Nat := 3000
def MAX_RETRIES : Nat := 5
def MAX_CONSECUTIVE_EMPTY : Nat := 2

/-! ## Storage bridge (db_operations.py) -/

/-- One row of the url_collection table: (category, subcategory, others, url).
The table carries a uniqueness constraint on url alone. -/
abbrev UrlRow := String × String × String × String

/-- The urls currently stored. -/
def dbUrls (db : List UrlRow) : List String := db.map fun r => r.2.2.2

/-- save_url (db_operations.py lines 23-42), with the two failure points made
explicit: connOk is whether get_connection() succeeded, execOk is whether the
INSERT/commit ran without raising. The INSERT uses ON CONFLICT (url) DO NOTHING,
so a duplicate url leaves the table unchanged; the function then still commits
and returns True. It returns False only when the connection failed or an
exception was raised (caught internally, never propagated). -/
def save_url (connOk execOk : Bool) (category subcategory others url : String)
    (db : List UrlRow) : Bool × List UrlRow :=
  if !connOk then (false, db)
  else if !execOk then (false, db)
  else if (dbUrls db).contains url then (true, db)
  else (true, (category, subcategory, others, url) :: db)

/-- load_saved_urls (db_operations.py lines 44-62): the urls already stored for
this (category, subcategory, others) triple; a connection or query failure is
caught internally and yields the empty set. -/
def load_saved_urls (category subcategory others : String) (db : List UrlRow) :
    List String :=
  (db.filter fun r => r.1 == category && r.2.1 == subcategory && r.2.2.1 == others).map
    fun r => r.2.2.2

/-! ## Checkpoint record and file-system model (oxylab2.py lines 52-80) -/

/-- The checkpoint record written by the crawler (oxylab2.py lines 191-199).
The wall-clock timestamp field is not modelled (no claim consumes it). -/
structure Ckpt where
  sheet : String
  category : String
  subcategory : Option String
  brand : Option String
  start : Nat
  page_num : Nat
deriving DecidableEq, Repr

/-- The serialized JSON text of a checkpoint, treated as an opaque rendering:
the claims about the checkpoint file concern completeness and atomicity of the
write, not the JSON syntax. -/
def encodeCkpt (ck : Ckpt) : String :=
  "sheet=" ++ ck.sheet ++ ";category=" ++ ck.category ++
  ";subcategory=" ++ (ck.subcategory.getD "null") ++
  ";brand=" ++ (ck.brand.getD "null") ++
  ";start=" ++ toString ck.start ++ ";page_num=" ++ toString ck.page_num

/-- The file-system operations the checkpoint code can perform. The canonical
path is CHECKPOINT_FILE, the temporary path is CHECKPOINT_FILE + ".tmp". -/
inductive FsOp where
  | writeTmp (content : String)
  | renameTmpToCanonical
  | writeCanonical (content : String)
deriving DecidableEq, Repr

/-- The observable checkpoint file system: the canonical file and the temporary
file, each either absent or holding some text. -/
structure Fs where
  canonical : Option String
  tmp : Option String
deriving DecidableEq, Repr

/-- Effect of one completed file-system operation. os.replace is an atomic
rename: it installs the temporary file's full content as the canonical file. -/
def applyFsOp : Fs → FsOp → Fs
  | fs, .writeTmp c => { fs with tmp := some c }
  | fs, .renameTmpToCanonical => { canonical := fs.tmp, tmp := Option.none }
  | fs, .writeCanonical c => { fs with canonical := some c }

/-- The exact operation sequence of save_checkpoint (oxylab2.py lines 62-67):
write the full serialized record to the temporary path, then atomically rename
it over the canonical path. The canonical path is never written in place. -/
def save_checkpoint_ops (state : Ckpt) : List FsOp :=
  [.writeTmp (encodeCkpt state), .renameTmpToCanonical]

/-- The file system observed when the process crashes during save_checkpoint:
the first k operations have completed, and the temporary file may additionally
hold arbitrary partial junk (a torn write of the currently running operation
can only affect the temporary path, since the only operation touching the
canonical path is the atomic rename). -/
def crashState (fs : Fs) (state : Ckpt) (k : Nat) (tornTmp : Option String) : Fs :=
  { (List.foldl applyFsOp fs ((save_checkpoint_ops state).take k)) with tmp := tornTmp }

/-- Outcome oracle for the file write inside save_checkpoint: either the write
completes, or it raises an OSError leaving the temporary path in an arbitrary
torn state (the open/json.dump only ever target the temporary path). -/
inductive WriteOutcome where
  | ok
  | ioError (torn : Option String)

/-- The body of save_checkpoint before its except clause (oxylab2.py lines
63-67): write the record to the temporary path (which may raise), then
atomically rename over the canonical path. Returns the resulting file system
and the exception raised, if any. -/
def save_checkpoint_body (w : WriteOutcome) (fs : Fs) (state : Ckpt) :
    Fs × Option PyErr :=
  match w with
  | .ok => (List.foldl applyFsOp fs (save_checkpoint_ops state), Option.none)
  | .ioError torn => ({ fs with tmp := torn }, some .osError)

/-- save_checkpoint (oxylab2.py lines 62-72) including its try/except: any
exception from the body is caught (except Exception), logged, and the function
returns normally; the second component is the exception that propagates to the
caller. -/
def save_checkpoint (w : WriteOutcome) (fs : Fs) (state : Ckpt) : Fs × Option PyErr :=
  match save_checkpoint_body w fs state with
  | (fs', _) => (fs', Option.none)

/-- What load_checkpoint finds on disk: no file, a raising read, or some text. -/
inductive ReadOutcome where
  | missing
  | ioError
  | content (s : String)

/-- The body of load_checkpoint before its except clause (oxylab2.py lines
54-57), with an explicit parser p standing for json.load: a missing file skips
the try block entirely; opening/reading may raise OSError; unparseable content
raises json.JSONDecodeError (a ValueError). -/
def load_checkpoint_body (p : String → Option Ckpt) (r : ReadOutcome) :
    Except PyErr (Option Ckpt) :=
  match r with
  | .missing => .ok Option.none
  | .ioError => .error .osError
  | .content s =>
      match p s with
      | some ck => .ok (some ck)
      | Option.none => .error .valueError

/-- load_checkpoint (oxylab2.py lines 53-60): any exception from the body is
caught (except Exception), logged as "starting fresh", and None is returned;
the second component is the exception that propagates to the caller. -/
def load_checkpoint (p : String → Option Ckpt) (r : ReadOutcome) :
    Option Ckpt × Option PyErr :=
  match load_checkpoint_body p r with
  | .ok v => (v, Option.none)
  | .error _ => (Option.none, Option.none)

/-! ## The crawl driver (oxylab2.py, crawl, lines 178-379, and the __main__
block, lines 382-404).

The driver is embedded as a deterministic function of an environment holding
the external world: the provider's response to the reconnaissance request and
to each page request attempt, and failure injections for the storage calls.
It produces a trace of observable events: every HTTP request issued
(reconnaissance probe and page attempts), a per-page completion record
mirroring the per-page log line (its found count, and whether the page was
actually fetched or its retries were exhausted), and every checkpoint write. -/

/-- Observable events of a crawl run. -/
inductive Ev where
  | probe (subcategory brand : String) (offset : Nat)
  | page (subcategory brand : String) (offset attempt : Nat)
  | pageDone (subcategory brand : String) (offset found : Nat) (fetched : Bool)
  | save (ck : Ckpt)
deriving DecidableEq, Repr

/-- The resume checkpoint handed to crawl (the parsed checkpoint JSON). -/
structure Resume where
  sheet : String
  subcategory : Option String
  brand : Option String
  start : Nat
  page_num : Nat
deriving DecidableEq, Repr

/-- resume_state.get("subcategory"): None when no checkpoint. -/
def rSub : Option Resume → Option String
  | some rs => rs.subcategory
  | _ => Option.none

/-- resume_state.get("brand"). -/
def rBrand : Option Resume → Option String
  | some rs => rs.brand
  | _ => Option.none

/-- resume_state.get("start", 0). -/
def rStart : Option Resume → Nat
  | some rs => rs.start
  | _ => 0

/-- resume_state.get("page_num", 0). -/
def rPage : Option Resume → Nat
  | some rs => rs.page_num
  | _ => 0

/-- The external world: probeResp s b is the parsed JSON body of the
reconnaissance request for unit (s, b) (Option.none when the request or
raise_for_status raised); pageResp s b off k is the parsed body of the k-th
retry attempt of the page request at offset off (Option.none when that attempt
raised a RequestException); dbFail n injects a connection/execution failure
into the n-th save_url call of the run; loadFail s b makes load_saved_urls
return the empty set for that unit (connection failure). -/
structure Env where
  probeResp : String → String → Option PyVal
  pageResp : String → String → Nat → Nat → Option PyVal
  dbFail : Nat → Bool
  loadFail : String → String → Bool

/-- The mutable run state threaded through crawl: the URL store, the in-memory
checkpoint dict ck, the checkpoint file, the run-wide URL tally, and the count
of save_url calls made so far (used to index dbFail). -/
structure CSt where
  db : List UrlRow
  ck : Ckpt
  ckFile : Option Ckpt
  total_urls_found : Nat
  saveCalls : Nat
deriving Repr

/-- Oxylabs credentials truthiness: a missing or empty string is falsy
(oxylab2.py line 182). -/
def truthyOpt : Option String → Bool
  | some s => s != ""
  | _ => false

/-- The Oxylabs credentials read from the environment. -/
structure Creds where
  username : Option String
  password : Option String

/-- not OXYLABS_USERNAME or not OXYLABS_PASSWORD, negated. -/
def credsOk (c : Creds) : Bool :=
  truthyOpt c.username && truthyOpt c.password

/-- The ceiling derivation from the reconnaissance response (oxylab2.py lines
268-282): on a usable positive total count T, estimated_pages = ceil(T / 10)
and max_start = (estimated_pages - 1) * 10; on an absent or unusable count, or
any exception in the try block (request failure, raise_for_status, a raising
extract_total_results), the default ceiling is kept. Python computes
ceil(total/10) by float division; it equals exact ceiling division at every
magnitude this program can meet and is modelled exactly. -/
def computeMaxStart (resp : Option PyVal) : Nat :=
  match resp with
  | Option.none => DEFAULT_MAX_START
  | some d =>
    match extract_total_results d with
    | .ok (some n) =>
        if 0 < n then
          ((n.toNat + RESULTS_PER_PAGE - 1) / RESULTS_PER_PAGE - 1) * RESULTS_PER_PAGE
        else DEFAULT_MAX_START
    | _ => DEFAULT_MAX_START

/-- The retry loop around one page request (oxylab2.py lines 293-302): up to
MAX_RETRIES attempts at the same offset, stopping at the first attempt whose
request succeeds; each attempt issues one HTTP request (one page event).
Returns the events and the parsed body of the successful attempt, if any. -/
def tryFetch (env : Env) (subcategory brand : String) (start : Nat) :
    Nat → Nat → List Ev × Option PyVal
  | _, 0 => ([], Option.none)
  | attempt, fuel+1 =>
    let ev := Ev.page subcategory brand start attempt
    match env.pageResp subcategory brand start attempt with
    | some d => ([ev], some d)
    | Option.none =>
        let (evs, res) := tryFetch env subcategory brand start (attempt+1) fuel
        (ev :: evs, res)

/-- The in-memory accumulator of one page's result loop (oxylab2.py lines
314-327). -/
structure PageAcc where
  seen : List String
  db : List UrlRow
  found : Nat
  total_urls_found : Nat
  saveCalls : Nat

/-- The per-result loop of one page (oxylab2.py lines 315-327): extract the
link (its AttributeError on a non-dict record propagates: the Bool result is
the raised flag, and the partial accumulator before the raise is kept, as the
Python mutations are); keep links containing "catawiki.com/en/l/";
canonicalize by splitting at the first "&"; skip urls already in the in-memory
seen set; otherwise add to seen and call save_url, counting the url when
save_url returns True. -/
def processResults (env : Env) (category subcategory brand : String) :
    List PyVal → PageAcc → PageAcc × Bool
  | [], acc => (acc, false)
  | r :: rs, acc =>
    match extract_link_from_result r with
    | .error _ => (acc, true)
    | .ok link =>
      if strContainsSub link "catawiki.com/en/l/" then
        let clean := takeBeforeAmp link
        if acc.seen.contains clean then
          processResults env category subcategory brand rs acc
        else
          let res := save_url (!env.dbFail acc.saveCalls) true category subcategory brand
            clean acc.db
          let acc' : PageAcc :=
            { seen := clean :: acc.seen, db := res.2,
              found := if res.1 then acc.found + 1 else acc.found,
              total_urls_found :=
                if res.1 then acc.total_urls_found + 1 else acc.total_urls_found,
              saveCalls := acc.saveCalls + 1 }
          processResults env category subcategory brand rs acc'
      else processResults env category subcategory brand rs acc

/-- How one page attempt of the pagination loop ended: retries exhausted (the
page is skipped and the loop continues unconditionally), an exception
propagated to the per-brand handler (the unit ends), or a fetched page with
its number of newly stored urls and the updated seen set. -/
inductive PageOutcome where
  | exhausted
  | aborted
  | done (found : Nat) (seen : List String)

/-- The body of one pagination iteration after the checkpoint write (oxylab2.py
lines 290-329): run the retry loop; on exhausted retries record a zero-found
skipped page (the log line of line 305); on a fetched page, extract the
organic results and the total count and iterate the results (an AttributeError
from either extractor or a TypeError from iterating a non-list organic value
propagates: outcome aborted, with the storage effects made so far kept),
otherwise record the page completion with its found count (the log line of
line 329). The checkpoint dict is untouched by the body. -/
def pageBody (env : Env) (category subcategory brand : String) (start : Nat)
    (seen : List String) (st : CSt) : List Ev × CSt × PageOutcome :=
  let fetched := tryFetch env subcategory brand start 1 MAX_RETRIES
  match fetched.2 with
  | Option.none =>
      (fetched.1 ++ [Ev.pageDone subcategory brand start 0 false], st, .exhausted)
  | some d =>
    match extract_results_from_oxylabs d with
    | .error _ => (fetched.1, st, .aborted)
    | .ok organicV =>
      match extract_total_results d with
      | .error _ => (fetched.1, st, .aborted)
      | .ok _ =>
        match pyIter organicV with
        | .error _ => (fetched.1, st, .aborted)
        | .ok results =>
          let pr := processResults env category subcategory brand results
            ⟨seen, st.db, 0, st.total_urls_found, st.saveCalls⟩
          let st2 : CSt := { st with
            db := pr.1.db, total_urls_found := pr.1.total_urls_found,
            saveCalls := pr.1.saveCalls }
          if pr.2 then (fetched.1, st2, .aborted)
          else
            (fetched.1 ++ [Ev.pageDone subcategory brand start pr.1.found true],
             st2, .done pr.1.found pr.1.seen)

/-- One iteration head of the pagination loop: update the checkpoint dict with
the offset about to be fetched and persist it (oxylab2.py lines 287-288), then
run the page body. Returns the checkpoint persisted, the events (the
checkpoint write followed by the page attempts), the updated state and the
outcome. -/
def pageStep (env : Env) (category subcategory brand : String)
    (start page_num : Nat) (seen : List String) (st : CSt) :
    Ckpt × List Ev × CSt × PageOutcome :=
  let ck2 : Ckpt := { st.ck with start := start, page_num := page_num }
  let st1 : CSt := { st with ck := ck2, ckFile := some ck2 }
  let body := pageBody env category subcategory brand start seen st1
  (ck2, Ev.save ck2 :: body.1, body.2.1, body.2.2)

/-- The pagination loop of one work unit (oxylab2.py lines 285-349), fuelled:
each iteration consumes one unit of fuel and advances start by
RESULTS_PER_PAGE, so the fuel supplied by processBrand (maxStart +
RESULTS_PER_PAGE - start) can never run out before the while condition start <=
max_start fails. Each iteration runs pageStep and dispatches on its outcome:
on exhausted retries increment consecutive_empty, advance start and continue
(no further check, lines 304-308); on an abort end the unit; on a fetched page
stop when the page found nothing and consecutive_empty reached
MAX_CONSECUTIVE_EMPTY, or when start + RESULTS_PER_PAGE exceeds max_start;
otherwise advance and loop (lines 330-344). -/
def pageLoopF (env : Env) (category subcategory brand : String) (maxStart : Nat) :
    Nat → Nat → Nat → Nat → List String → CSt → List Ev × CSt
  | 0, _, _, _, _, st => ([], st)
  | fuel+1, start, page_num, consecutive_empty, seen, st =>
    if start ≤ maxStart then
      let step := pageStep env category subcategory brand start page_num seen st
      match step.2.2.2 with
      | .exhausted =>
          let rest := pageLoopF env category subcategory brand maxStart fuel
            (start + RESULTS_PER_PAGE) page_num (consecutive_empty + 1) seen step.2.2.1
          (step.2.1 ++ rest.1, rest.2)
      | .aborted => (step.2.1, step.2.2.1)
      | .done found seen2 =>
          if found = 0 ∧ MAX_CONSECUTIVE_EMPTY ≤ consecutive_empty + 1 then
            (step.2.1, step.2.2.1)
          else
            let ce2 := if found = 0 then consecutive_empty + 1 else 0
            if maxStart < start + RESULTS_PER_PAGE then
              (step.2.1, step.2.2.1)
            else
              let rest := pageLoopF env category subcategory brand maxStart fuel
                (start + RESULTS_PER_PAGE) (page_num + 1) ce2 seen2 step.2.2.1
              (step.2.1 ++ rest.1, rest.2)
    else ([], st)

/-- One fully processed work unit (oxylab2.py lines 255-282 and the per-brand
finally at lines 354-364): set the checkpoint to this unit with its starting
offset and page (0/0 for a fresh unit, the checkpoint values for the resumed
one), load the seen set, issue the reconnaissance request at offset 0 to
derive the ceiling, paginate, and finally persist the checkpoint once more
(with whatever values the last loop iteration left in it). -/
def processBrand (env : Env) (category subcategory brand : String)
    (start0 page0 : Nat) (st : CSt) : List Ev × CSt :=
  let ck' : Ckpt := { st.ck with
    subcategory := some subcategory, brand := some brand,
    start := start0, page_num := page0 }
  let st1 : CSt := { st with ck := ck' }
  let seen := if env.loadFail subcategory brand then []
    else load_saved_urls category subcategory brand st1.db
  let maxStart := computeMaxStart (env.probeResp subcategory brand)
  let res := pageLoopF env category subcategory brand maxStart
    (maxStart + RESULTS_PER_PAGE - start0) start0 page0 0 seen st1
  (Ev.probe subcategory brand 0 :: res.1 ++ [Ev.save res.2.ck],
   { res.2 with ckFile := some res.2.ck })

/-- list.index as used by the resume brand comparison (oxylab2.py line 241):
Option.none models the ValueError for an absent element. -/
def idxOf : List String → String → Option Nat
  | [], _ => Option.none
  | x :: rest, y => if x == y then some 0 else (idxOf rest y).map (· + 1)

/-- The inner brand loop (oxylab2.py lines 222-364). While the
skip-until-resume flag is set: a brand of the checkpoint subcategory whose
list index precedes the checkpoint brand's is skipped by continue - but the
per-brand finally still appends a stats row and persists the (unchanged)
checkpoint; the brand matching the checkpoint exactly resumes at the
checkpoint's start/page_num and clears the flag; any other brand (including
the ValueError case of a checkpoint brand absent from the list) is processed
fresh with the flag left set. With the flag clear every brand is processed
fresh. brandsAll is SUBCATEGORIES[subcategory], the full brand list used for
the index comparison. -/
def brandLoop (env : Env) (category : String) (r : Option Resume)
    (subcategory : String) (brandsAll : List String) :
    List String → Bool → CSt → List Ev × CSt × Bool
  | [], skip, st => ([], st, skip)
  | brand :: rest, skip, st =>
    if skip then
      let skipThis :=
        (some subcategory == rSub r) && (some brand != rBrand r) &&
        (match idxOf brandsAll brand, (rBrand r).bind (idxOf brandsAll) with
         | some i, some j => decide (i < j)
         | _, _ => false)
      if skipThis then
        let st1 : CSt := { st with ckFile := some st.ck }
        let res := brandLoop env category r subcategory brandsAll rest true st1
        (Ev.save st.ck :: res.1, res.2)
      else if (some subcategory == rSub r) && (some brand == rBrand r) then
        let this := processBrand env category subcategory brand (rStart r) (rPage r) st
        let res := brandLoop env category r subcategory brandsAll rest false this.2
        (this.1 ++ res.1, res.2)
      else
        let this := processBrand env category subcategory brand 0 0 st
        let res := brandLoop env category r subcategory brandsAll rest true this.2
        (this.1 ++ res.1, res.2)
    else
      let this := processBrand env category subcategory brand 0 0 st
      let res := brandLoop env category r subcategory brandsAll rest false this.2
      (this.1 ++ res.1, res.2)

/-- The outer subcategory loop (oxylab2.py lines 214-220): while the
skip-until-resume flag is set, a subcategory different from the checkpoint's
is skipped entirely - no request, no stats row, no checkpoint write. -/
def subLoop (env : Env) (category : String) (r : Option Resume) :
    List (String × List String) → Bool → CSt → List Ev × CSt × Bool
  | [], skip, st => ([], st, skip)
  | (subcategory, brands) :: rest, skip, st =>
    if skip && (some subcategory != rSub r) then
      subLoop env category r rest skip st
    else
      let this := brandLoop env category r subcategory brands brands skip st
      let res := subLoop env category r rest this.2.2 this.2.1
      (this.1 ++ res.1, res.2)

/-- crawl (oxylab2.py lines 178-379) for one sheet whose work list has already
been loaded: missing credentials are run-fatal (logged, return before any unit
and before init_db, with no event and no state change); otherwise the
checkpoint dict is initialized (merged with the resume record when its sheet
matches), the skip-until-resume flag is set exactly when a resume record was
given, and the subcategory loop runs. -/
def crawl (env : Env) (sheet_name category : String)
    (subcategories : List (String × List String)) (resume_state : Option Resume)
    (creds : Creds) (db0 : List UrlRow) (ckFile0 : Option Ckpt) : List Ev × CSt :=
  let ckInit : Ckpt :=
    { sheet := sheet_name, category := category, subcategory := Option.none,
      brand := Option.none, start := 0, page_num := 0 }
  let ck0 : Ckpt :=
    match resume_state with
    | some rs =>
        if rs.sheet == sheet_name then
          { ckInit with
            subcategory := rs.subcategory, brand := rs.brand,
            start := rs.start, page_num := rs.page_num }
        else ckInit
    | Option.none => ckInit
  let st0 : CSt :=
    { db := db0, ck := ck0, ckFile := ckFile0, total_urls_found := 0,
      saveCalls := 0 }
  if !credsOk creds then ([], { st0 with ck := ckInit })
  else
    let res := subLoop env category resume_state subcategories resume_state.isSome st0
    (res.1, res.2.1)

/-- One sheet of the workbook, as produced by load_subcategories_from_excel. -/
structure SheetData where
  name : String
  category : String
  subcategories : List (String × List String)

/-- The __main__ driver loop (oxylab2.py lines 382-404): sheets before the
checkpoint's sheet are skipped; the checkpoint's sheet is crawled with the
resume record, which is then dropped; every later sheet is crawled fresh.
Returns the whole run's event trace and the final store and checkpoint file. -/
def mainRun (env : Env) (creds : Creds) :
    List SheetData → Option Resume → List UrlRow → Option Ckpt →
    List Ev × List UrlRow × Option Ckpt
  | [], _, db, ckf => ([], db, ckf)
  | sd :: rest, resume, db, ckf =>
    match resume with
    | some rs =>
      if rs.sheet != sd.name then mainRun env creds rest (some rs) db ckf
      else
        let this := crawl env sd.name sd.category sd.subcategories (some rs) creds db ckf
        let res := mainRun env creds rest Option.none this.2.db this.2.ckFile
        (this.1 ++ res.1, res.2)
    | Option.none =>
        let this := crawl env sd.name sd.category sd.subcategories Option.none creds db ckf
        let res := mainRun env creds rest Option.none this.2.db this.2.ckFile
        (this.1 ++ res.1, res.2)

/-! ## Concrete payloads and environments used by the concrete runs -/

/-- A well-formed Oxylabs page body whose organic results expose the given
urls. -/
def pagePayload (urls : List String) : PyVal :=
  .dict [("results", .list [.dict [("content", .dict [("results", .dict
    [("organic", .list (urls.map fun u => .dict [("url", .str u)])),
     ("search_information", .dict [])])])]])]

/-- A well-formed Oxylabs body whose search_information carries the given
total_results_count value and no organic results. -/
def probePayload (total : PyVal) : PyVal :=
  .dict [("results", .list [.dict [("content", .dict [("results", .dict
    [("organic", .list []),
     ("search_information", .dict [("total_results_count", total)])])])]])]

/-- Credentials present and non-empty. -/
def credsSome : Creds := { username := some "user", password := some "pass" }

/-- Credentials absent from the environment. -/
def credsNone : Creds := { username := Option.none, password := Option.none }

/-! ## Trace observations and claim predicates -/

/-- The offsets of provider requests (probe and page attempts) issued for the
given unit, in trace order. -/
def providerOffsets (tr : List Ev) (s b : String) : List Nat :=
  tr.filterMap fun e =>
    match e with
    | .probe s1 b1 off => if s1 == s && b1 == b then some off else Option.none
    | .page s1 b1 off _ => if s1 == s && b1 == b then some off else Option.none
    | _ => Option.none

/-- The offsets of page request attempts issued for the given unit, in trace
order (the reconnaissance probe excluded). -/
def pageOffsets (tr : List Ev) (s b : String) : List Nat :=
  tr.filterMap fun e =>
    match e with
    | .page s1 b1 off _ => if s1 == s && b1 == b then some off else Option.none
    | _ => Option.none

/-- No provider request (probe or page attempt) of a unit satisfying p occurs
in the trace. -/
def noProviderEventsFor (tr : List Ev) (p : String → String → Bool) : Bool :=
  tr.all fun e =>
    match e with
    | .probe s1 b1 _ => !p s1 b1
    | .page s1 b1 _ _ => !p s1 b1
    | _ => true

/-- The units preceding (S, B) in iteration order, for a work list of the
shape pre ++ (S, bpre ++ B :: bpost) :: post: every unit of a subcategory
listed in pre, and the units of S whose brand is listed in bpre. -/
def precedesUnit (pre : List (String × List String)) (S : String)
    (bpre : List String) (s b : String) : Bool :=
  (pre.map Prod.fst).contains s || (s == S && bpre.contains b)

/-- Claim C1 as stated, on a trace: no provider fetch for a preceding unit,
and the first provider fetch for (S, B), when one exists, uses offset N. -/
def resumeExactness (tr : List Ev) (pre : List (String × List String))
    (S : String) (bpre : List String) (B : String) (N : Nat) : Bool :=
  noProviderEventsFor tr (precedesUnit pre S bpre) &&
  (providerOffsets tr S B).head?.all (fun o => o == N)

/-- Claim C1 amended, on a trace: no provider fetch for a preceding unit, and
the first page fetch for (S, B), when one exists, uses offset N (the
reconnaissance probe at offset 0 is not counted: it is issued for every
processed unit, the resumed one included). -/
def resumeExactnessAmended (tr : List Ev) (pre : List (String × List String))
    (S : String) (bpre : List String) (B : String) (N : Nat) : Bool :=
  noProviderEventsFor tr (precedesUnit pre S bpre) &&
  (pageOffsets tr S B).head?.all (fun o => o == N)

/-- Claim C2 as stated, on a trace: no probe is issued for the resumed unit
(S, B), and its first page fetch, when one exists, uses the checkpoint offset
N (never silently reset to 0). -/
def probeSkippedAndStartKept (tr : List Ev) (S B : String) (N : Nat) : Bool :=
  (tr.all fun e =>
    match e with
    | .probe s1 b1 _ => !(s1 == S && b1 == B)
    | _ => true) &&
  (pageOffsets tr S B).head?.all (fun o => o == N)

/-- Claim C2 amended, on a trace: the probe for the resumed unit (S, B) is
issued (at offset 0), and its first page fetch, when one exists, still uses
the checkpoint offset N. -/
def probeDoneAndStartKept (tr : List Ev) (S B : String) (N : Nat) : Bool :=
  tr.contains (Ev.probe S B 0) &&
  (pageOffsets tr S B).head?.all (fun o => o == N)

/-- The events of one unit (its probe, page attempts and page completions). -/
def unitEvents (tr : List Ev) (s b : String) : List Ev :=
  tr.filter fun e =>
    match e with
    | .probe s1 b1 _ => s1 == s && b1 == b
    | .page s1 b1 _ _ => s1 == s && b1 == b
    | .pageDone s1 b1 _ _ _ => s1 == s && b1 == b
    | .save _ => false

/-- Claim C3 as stated, scanned over one unit's events: once two consecutive
page attempts have each yielded zero newly stored urls (streak at least 2), no
further page request may occur for the unit. -/
def emptyStreakStops : List Ev → Nat → Bool
  | [], _ => true
  | .page _ _ _ _ :: rest, streak => decide (streak < 2) && emptyStreakStops rest streak
  | .pageDone _ _ _ found _ :: rest, streak =>
      emptyStreakStops rest (if found = 0 then streak + 1 else 0)
  | _ :: rest, streak => emptyStreakStops rest streak

/-- Claim C3 amended, scanned over one unit's events: a page request with a
zero-yield streak of at least 2 can only occur when the latest attempt was one
whose retries were exhausted (fetched = false); an attempt that was actually
fetched and brings the streak to 2 always stops the unit. -/
def emptyStreakStopsAmended : List Ev → Nat → Bool → Bool
  | [], _, _ => true
  | .page _ _ _ _ :: rest, streak, lastExhausted =>
      (decide (streak < 2) || lastExhausted) &&
      emptyStreakStopsAmended rest streak lastExhausted
  | .pageDone _ _ _ found fetched :: rest, streak, _ =>
      emptyStreakStopsAmended rest (if found = 0 then streak + 1 else 0) (!fetched)
  | _ :: rest, streak, lastExhausted => emptyStreakStopsAmended rest streak lastExhausted

/-- Latest recorded value per unit (assoc list with shadowing). -/
def setLast (m : List ((String × String) × Nat)) (k : String × String) (v : Nat) :
    List ((String × String) × Nat) :=
  (k, v) :: m

/-- Latest recorded value per unit. -/
def getLast (m : List ((String × String) × Nat)) (k : String × String) : Option Nat :=
  match m with
  | [] => Option.none
  | (k1, v) :: rest => if k1 == k then some v else getLast rest k

/-- Claim C7 as stated, scanned over a trace with the latest persisted start
per unit (saved) and the latest completed page-attempt offset per unit (done):
every persisted start is a non-negative multiple of the page size; every page
request is issued at the latest persisted start of its unit (the checkpoint
always holds the next offset to fetch); and a persisted start never equals the
offset of the unit's last completed page attempt. -/
def ckptOffsetInvariant :
    List Ev → List ((String × String) × Nat) → List ((String × String) × Nat) → Bool
  | [], _, _ => true
  | .save ck :: rest, saved, done =>
      decide (ck.start % RESULTS_PER_PAGE = 0) &&
      match ck.subcategory, ck.brand with
      | some s, some b =>
          (getLast done (s, b) != some ck.start) &&
          ckptOffsetInvariant rest (setLast saved (s, b) ck.start) done
      | _, _ => ckptOffsetInvariant rest saved done
  | .page s b off _ :: rest, saved, done =>
      (getLast saved (s, b) == some off) && ckptOffsetInvariant rest saved done
  | .pageDone s b off _ _ :: rest, saved, done =>
      ckptOffsetInvariant rest saved (setLast done (s, b) off)
  | .probe _ _ _ :: rest, saved, done => ckptOffsetInvariant rest saved done

/-- Claim C7 amended: as ckptOffsetInvariant but without the last clause - the
checkpoint persisted by the per-unit finally block repeats the offset of the
unit's last attempted page instead of the next offset, so only the multiple
and next-offset-coverage clauses hold of every persisted checkpoint. -/
def ckptOffsetInvariantAmended : List Ev → List ((String × String) × Nat) → Bool
  | [], _ => true
  | .save ck :: rest, saved =>
      decide (ck.start % RESULTS_PER_PAGE = 0) &&
      match ck.subcategory, ck.brand with
      | some s, some b => ckptOffsetInvariantAmended rest (setLast saved (s, b) ck.start)
      | _, _ => ckptOffsetInvariantAmended rest saved
  | .page s b off _ :: rest, saved =>
      (getLast saved (s, b) == some off) && ckptOffsetInvariantAmended rest saved
  | _ :: rest, saved => ckptOffsetInvariantAmended rest saved

/-! ## Concrete runs used by the counterexamples and witnesses -/

/-- The spec's example checkpoint: sheet S1, subcategory Shoes, brand Adidas,
start 20, page 2. -/
def rDemo : Resume :=
  { sheet := "S1", subcategory := some "Shoes", brand := some "Adidas",
    start := 20, page_num := 2 }

/-- The spec's example work list. -/
def wlDemo : List (String × List String) := [("Shoes", ["Nike", "Adidas"])]

/-- Environment for the resume scenario: the probe reports 30 total results
(ceiling 20), every page request succeeds with an empty organic list. -/
def envDemo : Env :=
  { probeResp := fun _ _ => some (probePayload (.str "30"))
    pageResp := fun _ _ _ _ => some (pagePayload [])
    dbFail := fun _ => false
    loadFail := fun _ _ => false }

/-- The trace of the resumed run on the spec's example scenario. -/
def trDemo : List Ev :=
  (crawl envDemo "S1" "Cat" wlDemo (some rDemo) credsSome [] Option.none).1

/-- Environment for the empty-streak scenario: the probe reports 30 total
results (ceiling 20); the page requests at offsets 0 and 10 fail on every
retry attempt, the one at offset 20 succeeds with one in-scope url. -/
def envStreak : Env :=
  { probeResp := fun _ _ => some (probePayload (.str "30"))
    pageResp := fun _ _ off _ =>
      if off == 20 then some (pagePayload ["https://www.catawiki.com/en/l/1-x"])
      else Option.none
    dbFail := fun _ => false
    loadFail := fun _ _ => false }

/-- The trace of a fresh run on the empty-streak scenario. -/
def trStreak : List Ev :=
  (crawl envStreak "S1" "Cat" [("Bags", ["Gucci"])] Option.none credsSome []
    Option.none).1

/-- Environment for the unit-completion checkpoint scenario: the probe reports
5 total results (ceiling 0) and the single page at offset 0 succeeds with one
in-scope url. -/
def envCeil : Env :=
  { probeResp := fun _ _ => some (probePayload (.str "5"))
    pageResp := fun _ _ _ _ => some (pagePayload ["https://www.catawiki.com/en/l/1-x"])
    dbFail := fun _ => false
    loadFail := fun _ _ => false }

/-- The trace of a fresh run on the unit-completion scenario. -/
def trCeil : List Ev :=
  (crawl envCeil "S1" "Cat" [("Bags", ["Gucci"])] Option.none credsSome []
    Option.none).1

/-- A store already holding one url. -/
def db0C4 : List UrlRow := [("c", "s", "o", "https://u")]

/-- The claimed trySave contract at one call: True exactly when the url was
newly inserted (the call succeeded and the url was not already present). -/
def trySaveContract (connOk execOk : Bool) (c s o url : String)
    (db : List UrlRow) : Prop :=
  (save_url connOk execOk c s o url db).1 = true ↔
    ((!(dbUrls db).contains url) && connOk && execOk) = true

/-- A payload with a wrongly typed nesting: results[0] is an int, so
results[0].get raises AttributeError. -/
def badPayloadC5 : PyVal := .dict [("results", .list [.int 42])]

/-- The latest persisted start per unit after scanning a trace (the fold state
of ckptOffsetInvariantAmended). -/
def savedState : List Ev → List ((String × String) × Nat) → List ((String × String) × Nat)
  | [], m => m
  | .save ck :: rest, m =>
      match ck.subcategory, ck.brand with
      | some s, some b => savedState rest (setLast m (s, b) ck.start)
      | _, _ => savedState rest m
  | _ :: rest, m => savedState rest m

/-- Classifier: the event belongs to unit (s, b) - probe/page/pageDone events
carry the labels directly, checkpoint saves through their record fields. -/
def evBelongs (s b : String) : Ev → Bool
  | .probe s1 b1 _ => s1 == s && b1 == b
  | .page s1 b1 _ _ => s1 == s && b1 == b
  | .pageDone s1 b1 _ _ _ => s1 == s && b1 == b
  | .save ck => ck.subcategory == some s && ck.brand == some b

/-! ## Theorems -/

/-- C5 (code_bug evidence). The extractor is not total at its boundary: on the
payload with results equal to the one-element list holding the int 42 - a
wrongly typed nesting of exactly the kind the claim covers - the expression
results[0].get raises AttributeError, which the except clause (IndexError,
KeyError, TypeError) does not catch, so the exception propagates past the
extraction boundary instead of yielding the empty sequence. -/
theorem extract_results_attribute_error_escapes :
    extract_results_from_oxylabs badPayloadC5 = .error .attributeError := rfl

/-- C4 counterexample. The claimed contract - save_url returns true iff the
url was newly inserted, false when already present - fails at a concrete call:
with a working connection, saving a url already present in the store executes
INSERT ... ON CONFLICT (url) DO NOTHING, stores nothing, and still returns
True. -/
theorem try_save_contract_counterexample :
    ¬ trySaveContract true true "c" "s" "o" "https://u" db0C4 := by
  unfold trySaveContract; decide

/-- C4 amended. save_url returns True exactly when the connection succeeded
and the insert executed without raising, regardless of whether the url was
newly inserted; a duplicate is silently skipped by the uniqueness constraint
(store unchanged) and still reported as True, never surfaced as an error; a
failed call leaves the store unchanged. -/
theorem save_url_success_iff_no_failure (connOk execOk : Bool)
    (c s o url : String) (db : List UrlRow) :
    (save_url connOk execOk c s o url db).1 = (connOk && execOk) ∧
    ((dbUrls db).contains url = true → (save_url connOk execOk c s o url db).2 = db) ∧
    ((connOk && execOk) = false → (save_url connOk execOk c s o url db).2 = db) := by
  cases connOk <;> cases execOk <;>
    by_cases hc : url ∈ dbUrls db <;>
      simp [save_url, hc]

/-- Witness for C4 amended at a concrete duplicate call. -/
theorem save_url_success_iff_no_failure_witness :
    (save_url true true "c" "s" "o" "https://u" db0C4).2 = db0C4 :=
  (save_url_success_iff_no_failure true true "c" "s" "o" "https://u" db0C4).2.1
    (by decide)

/-- C6. Checkpoint atomicity: a crash at any point of save_checkpoint (after k
completed operations, with the temporary file additionally left in any torn
state) leaves the canonical checkpoint file either at its previous content or
at the complete serialized record, never truncated; the operation sequence of
save_checkpoint never writes the canonical path in place; and a completed save
installs exactly the complete record. -/
theorem checkpoint_atomicity (fs : Fs) (state : Ckpt) (k : Nat)
    (torn : Option String) :
    ((crashState fs state k torn).canonical = fs.canonical ∨
     (crashState fs state k torn).canonical = some (encodeCkpt state)) ∧
    ((save_checkpoint_ops state).all
      (fun op => match op with | .writeCanonical _ => false | _ => true)) = true ∧
    (save_checkpoint .ok fs state).1.canonical = some (encodeCkpt state) := by
  refine ⟨?_, rfl, rfl⟩
  match k with
  | 0 => exact Or.inl rfl
  | 1 => exact Or.inl rfl
  | (n+2) =>
      right
      simp [crashState, save_checkpoint_ops, applyFsOp, List.take_succ_cons]

/-- C10. Checkpoint persistence failures never interrupt the crawl: whatever
the write outcome, save_checkpoint propagates no exception to its caller (a
failed write is only logged); load_checkpoint propagates no exception either,
and yields None both when the read raises and when the file content fails to
parse. Hence no checkpoint I/O failure can abort the pagination loop, at the
cost of silently losing resumability. -/
theorem checkpoint_io_failures_swallowed (w : WriteOutcome) (fs : Fs)
    (state : Ckpt) (p : String → Option Ckpt) (r : ReadOutcome) (s : String)
    (hp : p s = Option.none) :
    (save_checkpoint w fs state).2 = Option.none ∧
    (load_checkpoint p r).2 = Option.none ∧
    load_checkpoint p .ioError = (Option.none, Option.none) ∧
    load_checkpoint p (.content s) = (Option.none, Option.none) := by
  refine ⟨?_, ?_, rfl, ?_⟩
  · cases w <;> rfl
  · cases r with
    | missing => rfl
    | ioError => rfl
    | content s2 =>
        simp only [load_checkpoint, load_checkpoint_body]
        cases p s2 <;> simp
  · simp [load_checkpoint, load_checkpoint_body, hp]

/-- Witness for C10 at a concrete failing write and unparseable content. -/
theorem checkpoint_io_failures_swallowed_witness :
    (save_checkpoint (.ioError (some "torn"))
        { canonical := Option.none, tmp := Option.none }
        { sheet := "S", category := "C", subcategory := Option.none,
          brand := Option.none, start := 0, page_num := 0 }).2 = Option.none ∧
    (load_checkpoint (fun _ => Option.none) .ioError).2 = Option.none ∧
    load_checkpoint (fun _ => Option.none) .ioError = (Option.none, Option.none) ∧
    load_checkpoint (fun _ => Option.none) (.content "garbage") =
      (Option.none, Option.none) :=
  checkpoint_io_failures_swallowed (.ioError (some "torn")) _ _
    (fun _ => Option.none) .ioError "garbage" rfl

/-- C8. Ceiling derivation: whenever the probe body carries a usable positive
total count t (extract_total_results strips comma thousands separators), the
ceiling becomes (ceil(t / pageSize) - 1) * pageSize with pageSize 10 - stated
both by the explicit formula and by the characteristic bounds of the ceiling
(a multiple of the page size with maxStart < t <= maxStart + pageSize); when
the count is absent, unusable or the probe failed, the default ceiling 3000 is
kept. -/
theorem probe_ceiling_derivation (d : PyVal) (t : Int)
    (ht : extract_total_results d = .ok (some t)) (hpos : 0 < t) :
    computeMaxStart (some d) =
      ((t.toNat + RESULTS_PER_PAGE - 1) / RESULTS_PER_PAGE - 1) * RESULTS_PER_PAGE ∧
    RESULTS_PER_PAGE ∣ computeMaxStart (some d) ∧
    computeMaxStart (some d) < t.toNat ∧
    t.toNat ≤ computeMaxStart (some d) + RESULTS_PER_PAGE ∧
    computeMaxStart Option.none = DEFAULT_MAX_START ∧
    (∀ d2, extract_total_results d2 = .ok Option.none →
      computeMaxStart (some d2) = DEFAULT_MAX_START) ∧
    (∀ d2 e, extract_total_results d2 = .error e →
      computeMaxStart (some d2) = DEFAULT_MAX_START) := by
  have hm : computeMaxStart (some d) =
      ((t.toNat + RESULTS_PER_PAGE - 1) / RESULTS_PER_PAGE - 1) * RESULTS_PER_PAGE := by
    simp [computeMaxStart, ht, hpos]
  have ht0 : 0 < t.toNat := by omega
  refine ⟨hm, ?_, ?_, ?_, rfl, ?_, ?_⟩
  · rw [hm]; exact dvd_mul_left _ _
  · rw [hm]; simp only [RESULTS_PER_PAGE]; omega
  · rw [hm]; simp only [RESULTS_PER_PAGE]; omega
  · intro d2 h2; simp [computeMaxStart, h2]
  · intro d2 e h2; simp [computeMaxStart, h2]

/-- Witness for C8 on the spec's example: total_results_count "1,234" yields
ceiling 1230. -/
theorem probe_ceiling_derivation_witness :
    computeMaxStart (some (probePayload (.str "1,234"))) = 1230 := by
  have h := (probe_ceiling_derivation (probePayload (.str "1,234")) 1234 rfl
    (by norm_num)).1
  rw [h]; decide

/-- C9. Run-fatal on missing credentials: with the provider credentials absent
or empty, the whole driver run produces no event at all - no probe, no page
request, no checkpoint write - and leaves the url store and the checkpoint
file exactly as they were, for every sheet list and any resume record. -/
theorem run_fatal_on_missing_credentials (env : Env) (creds : Creds)
    (sheets : List SheetData) (r : Option Resume) (db0 : List UrlRow)
    (ckf0 : Option Ckpt) (h : credsOk creds = false) :
    mainRun env creds sheets r db0 ckf0 = ([], db0, ckf0) := by
  induction sheets generalizing r with
  | nil => cases r <;> rfl
  | cons sd rest ih =>
    cases r with
    | none => simp [mainRun, crawl, h, ih]
    | some rs =>
      by_cases hs : rs.sheet = sd.name
      · simp [mainRun, crawl, h, ih, hs]
      · simp [mainRun, crawl, h, ih, hs]

/-- Witness for C9 at a concrete one-sheet run with no credentials. -/
theorem run_fatal_on_missing_credentials_witness :
    mainRun envDemo credsNone
      [{ name := "S1", category := "Cat", subcategories := wlDemo }]
      Option.none [] Option.none = ([], [], Option.none) :=
  run_fatal_on_missing_credentials envDemo credsNone _ _ _ _ rfl

/-! ### List and scan lemmas -/

theorem unitEvents_append (a b : List Ev) (s br : String) :
    unitEvents (a ++ b) s br = unitEvents a s br ++ unitEvents b s br := by
  simp [unitEvents]

theorem pageOffsets_append (a b : List Ev) (s br : String) :
    pageOffsets (a ++ b) s br = pageOffsets a s br ++ pageOffsets b s br := by
  simp [pageOffsets]

theorem providerOffsets_append (a b : List Ev) (s br : String) :
    providerOffsets (a ++ b) s br = providerOffsets a s br ++ providerOffsets b s br := by
  simp [providerOffsets]

theorem noProviderEventsFor_append (a b : List Ev) (p : String → String → Bool) :
    noProviderEventsFor (a ++ b) p =
      (noProviderEventsFor a p && noProviderEventsFor b p) := by
  simp [noProviderEventsFor]

theorem unitEvents_eq_nil_of_belongs (l : List Ev) (s b s2 b2 : String)
    (hall : l.all (evBelongs s b) = true) (hne : ¬ (s = s2 ∧ b = b2)) :
    unitEvents l s2 b2 = [] := by
  induction l with
  | nil => rfl
  | cons e t ih =>
    rw [List.all_cons, Bool.and_eq_true] at hall
    have ht := ih hall.2
    have he := hall.1
    cases e <;> simp_all [unitEvents, evBelongs]

theorem pageOffsets_eq_nil_of_belongs (l : List Ev) (s b s2 b2 : String)
    (hall : l.all (evBelongs s b) = true) (hne : ¬ (s = s2 ∧ b = b2)) :
    pageOffsets l s2 b2 = [] := by
  induction l with
  | nil => rfl
  | cons e t ih =>
    rw [List.all_cons, Bool.and_eq_true] at hall
    have ht := ih hall.2
    have he := hall.1
    cases e <;> simp_all [pageOffsets, evBelongs]

theorem noProviderEventsFor_of_belongs (l : List Ev) (s b : String)
    (p : String → String → Bool)
    (hall : l.all (evBelongs s b) = true) (hp : p s b = false) :
    noProviderEventsFor l p = true := by
  induction l with
  | nil => rfl
  | cons e t ih =>
    rw [List.all_cons, Bool.and_eq_true] at hall
    have ht := ih hall.2
    have he := hall.1
    cases e <;> simp_all [noProviderEventsFor, evBelongs]

/-! ### Shape of one page attempt -/

theorem tryFetch_shape (env : Env) (s b : String) (off : Nat) :
    ∀ fuel a, ∃ l : List Nat,
      (tryFetch env s b off a fuel).1 = l.map (fun k => Ev.page s b off k) ∧
      (fuel ≠ 0 → l ≠ []) := by
  intro fuel
  induction fuel with
  | zero => exact fun a => ⟨[], rfl, fun h => absurd rfl h⟩
  | succ n ih =>
    intro a
    cases h : env.pageResp s b off a with
    | some d => exact ⟨[a], by simp [tryFetch, h], by simp⟩
    | none =>
      obtain ⟨l, hl, _⟩ := ih (a + 1)
      exact ⟨a :: l, by simp [tryFetch, h, hl], by simp⟩

theorem pageBody_shape (env : Env) (cat s b : String) (off : Nat)
    (seen : List String) (st : CSt) :
    ∃ l : List Nat, ∃ tail : List Ev, l ≠ [] ∧
      (pageBody env cat s b off seen st).1 =
        l.map (fun k => Ev.page s b off k) ++ tail ∧
      ((pageBody env cat s b off seen st).2.2 = .exhausted →
        tail = [Ev.pageDone s b off 0 false]) ∧
      ((pageBody env cat s b off seen st).2.2 = .aborted → tail = []) ∧
      (∀ f sn, (pageBody env cat s b off seen st).2.2 = .done f sn →
        tail = [Ev.pageDone s b off f true]) ∧
      (pageBody env cat s b off seen st).2.1.ck = st.ck := by
  obtain ⟨l, hl, hne⟩ := tryFetch_shape env s b off MAX_RETRIES 1
  have hl0 : l ≠ [] := hne (by decide)
  cases hf : (tryFetch env s b off 1 MAX_RETRIES).2 with
  | none =>
    refine ⟨l, [Ev.pageDone s b off 0 false], hl0, ?_, fun _ => rfl, ?_, ?_, ?_⟩
    · simp [pageBody, hf, hl]
    · intro h; simp [pageBody, hf] at h
    · intro f sn h; simp [pageBody, hf] at h
    · simp [pageBody, hf]
  | some d =>
    cases hx : extract_results_from_oxylabs d with
    | error e =>
      refine ⟨l, [], hl0, ?_, ?_, fun _ => rfl, ?_, ?_⟩
      · simp [pageBody, hf, hx, hl]
      · intro h; simp [pageBody, hf, hx] at h
      · intro f sn h; simp [pageBody, hf, hx] at h
      · simp [pageBody, hf, hx]
    | ok organicV =>
      cases hx2 : extract_total_results d with
      | error e =>
        refine ⟨l, [], hl0, ?_, ?_, fun _ => rfl, ?_, ?_⟩
        · simp [pageBody, hf, hx, hx2, hl]
        · intro h; simp [pageBody, hf, hx, hx2] at h
        · intro f sn h; simp [pageBody, hf, hx, hx2] at h
        · simp [pageBody, hf, hx, hx2]
      | ok tot =>
        cases hx3 : pyIter organicV with
        | error e =>
          refine ⟨l, [], hl0, ?_, ?_, fun _ => rfl, ?_, ?_⟩
          · simp [pageBody, hf, hx, hx2, hx3, hl]
          · intro h; simp [pageBody, hf, hx, hx2, hx3] at h
          · intro f sn h; simp [pageBody, hf, hx, hx2, hx3] at h
          · simp [pageBody, hf, hx, hx2, hx3]
        | ok results =>
          by_cases hr : (processResults env cat s b results
              ⟨seen, st.db, 0, st.total_urls_found, st.saveCalls⟩).2 = true
          · refine ⟨l, [], hl0, ?_, ?_, fun _ => rfl, ?_, ?_⟩
            · simp [pageBody, hf, hx, hx2, hx3, hr, hl]
            · intro h; simp [pageBody, hf, hx, hx2, hx3, hr] at h
            · intro f sn h; simp [pageBody, hf, hx, hx2, hx3, hr] at h
            · simp [pageBody, hf, hx, hx2, hx3, hr]
          · refine ⟨l, [Ev.pageDone s b off (processResults env cat s b results
                ⟨seen, st.db, 0, st.total_urls_found, st.saveCalls⟩).1.found true],
              hl0, ?_, ?_, ?_, ?_, ?_⟩
            · simp [pageBody, hf, hx, hx2, hx3, hr, hl]
            · intro h; simp [pageBody, hf, hx, hx2, hx3, hr] at h
            · intro h; simp [pageBody, hf, hx, hx2, hx3, hr] at h
            · intro f sn h
              simp [pageBody, hf, hx, hx2, hx3, hr] at h
              simp [h.1]
            · simp [pageBody, hf, hx, hx2, hx3, hr]

/-! ### Scan lemmas over a block of page attempts -/

theorem streak_scan_pages (s b : String) (off : Nat) (l : List Nat)
    (rest : List Ev) (streak : Nat) (lastExh : Bool)
    (h : streak < 2 ∨ lastExh = true) :
    emptyStreakStopsAmended (l.map (fun k => Ev.page s b off k) ++ rest)
      streak lastExh = emptyStreakStopsAmended rest streak lastExh := by
  induction l with
  | nil => rfl
  | cons a t ih =>
    rcases h with h | h <;> simp_all [emptyStreakStopsAmended]

theorem c7_scan_pages (s b : String) (off : Nat) (l : List Nat) (rest : List Ev)
    (m : List ((String × String) × Nat)) (h : getLast m (s, b) = some off) :
    ckptOffsetInvariantAmended (l.map (fun k => Ev.page s b off k) ++ rest) m =
      ckptOffsetInvariantAmended rest m := by
  induction l with
  | nil => rfl
  | cons a t ih =>
    simp only [List.map_cons, List.cons_append, ckptOffsetInvariantAmended, h]
    simp [ih]

theorem pageOffsets_map_pages (s b : String) (off : Nat) (l : List Nat) :
    pageOffsets (l.map (fun k => Ev.page s b off k)) s b =
      l.map (fun _ => off) := by
  induction l <;> simp_all [pageOffsets]

theorem unitEvents_map_pages (s b : String) (off : Nat) (l : List Nat)
    (rest : List Ev) :
    unitEvents (l.map (fun k => Ev.page s b off k) ++ rest) s b =
      l.map (fun k => Ev.page s b off k) ++ unitEvents rest s b := by
  induction l <;> simp_all [unitEvents]

theorem pageStep_shape (env : Env) (cat s b : String) (start page_num : Nat)
    (seen : List String) (st : CSt) :
    ∃ l : List Nat, ∃ tail : List Ev, l ≠ [] ∧
      (pageStep env cat s b start page_num seen st).2.1 =
        Ev.save (pageStep env cat s b start page_num seen st).1 ::
          (l.map (fun k => Ev.page s b start k) ++ tail) ∧
      ((pageStep env cat s b start page_num seen st).2.2.2 = .exhausted →
        tail = [Ev.pageDone s b start 0 false]) ∧
      ((pageStep env cat s b start page_num seen st).2.2.2 = .aborted →
        tail = []) ∧
      (∀ f sn, (pageStep env cat s b start page_num seen st).2.2.2 = .done f sn →
        tail = [Ev.pageDone s b start f true]) ∧
      (pageStep env cat s b start page_num seen st).2.2.1.ck =
        (pageStep env cat s b start page_num seen st).1 ∧
      (pageStep env cat s b start page_num seen st).1 =
        { st.ck with start := start, page_num := page_num } := by
  obtain ⟨l, tail, hl0, hevs, hex, hab, hdone, hck⟩ :=
    pageBody_shape env cat s b start seen
      { st with ck := { st.ck with start := start, page_num := page_num },
                ckFile := some { st.ck with start := start, page_num := page_num } }
  exact ⟨l, tail, hl0, by simp [pageStep, hevs], by simpa [pageStep] using hex,
    by simpa [pageStep] using hab, by simpa [pageStep] using hdone,
    by simpa [pageStep] using hck, by simp [pageStep]⟩

/-! ### Invariants of the pagination loop -/

theorem pageLoopF_belongs (env : Env) (cat s b : String) (maxStart : Nat) :
    ∀ fuel start page_num ce seen st,
      st.ck.subcategory = some s → st.ck.brand = some b →
      (pageLoopF env cat s b maxStart fuel start page_num ce seen st).1.all
        (evBelongs s b) = true ∧
      (pageLoopF env cat s b maxStart fuel start page_num ce seen st).2.ck.subcategory
        = some s ∧
      (pageLoopF env cat s b maxStart fuel start page_num ce seen st).2.ck.brand
        = some b := by
  intro fuel
  induction fuel with
  | zero =>
    intro start page_num ce seen st hs hb
    exact ⟨rfl, hs, hb⟩
  | succ n ih =>
    intro start page_num ce seen st hs hb
    by_cases hle : start ≤ maxStart
    · obtain ⟨l, tail, hl0, hevs, hex, hab, hdone, hck, hck2⟩ :=
        pageStep_shape env cat s b start page_num seen st
      have hstate_s :
          (pageStep env cat s b start page_num seen st).2.2.1.ck.subcategory = some s := by
        rw [hck, hck2]; exact hs
      have hstate_b :
          (pageStep env cat s b start page_num seen st).2.2.1.ck.brand = some b := by
        rw [hck, hck2]; exact hb
      cases ho : (pageStep env cat s b start page_num seen st).2.2.2 with
      | exhausted =>
        have htail := hex ho
        subst htail
        obtain ⟨ha, hs2, hb2⟩ := ih (start + RESULTS_PER_PAGE) page_num (ce + 1)
          seen _ hstate_s hstate_b
        refine ⟨?_, ?_, ?_⟩
        · simp [pageLoopF, hle, ho, hevs, ha, evBelongs, hck2, hs, hb]
        · simp [pageLoopF, hle, ho, hs2]
        · simp [pageLoopF, hle, ho, hb2]
      | aborted =>
        have htail := hab ho
        subst htail
        refine ⟨?_, ?_, ?_⟩
        · simp [pageLoopF, hle, ho, hevs, evBelongs, hck2, hs, hb]
        · simp [pageLoopF, hle, ho, hstate_s]
        · simp [pageLoopF, hle, ho, hstate_b]
      | done found seen2 =>
        have htail := hdone found seen2 ho
        subst htail
        by_cases hstop : found = 0 ∧ MAX_CONSECUTIVE_EMPTY ≤ ce + 1
        · refine ⟨?_, ?_, ?_⟩
          · simp [pageLoopF, hle, ho, hstop, hevs, evBelongs, hck2, hs, hb]
          · simp [pageLoopF, hle, ho, hstop, hstate_s]
          · simp [pageLoopF, hle, ho, hstop, hstate_b]
        · by_cases hceil : maxStart < start + RESULTS_PER_PAGE
          · refine ⟨?_, ?_, ?_⟩
            · simp [pageLoopF, hle, ho, hstop, hceil, hevs, evBelongs, hck2, hs, hb]
            · simp [pageLoopF, hle, ho, hstop, hceil, hstate_s]
            · simp [pageLoopF, hle, ho, hstop, hceil, hstate_b]
          · obtain ⟨ha, hs2, hb2⟩ := ih (start + RESULTS_PER_PAGE) (page_num + 1)
              (if found = 0 then ce + 1 else 0) seen2 _ hstate_s hstate_b
            refine ⟨?_, ?_, ?_⟩
            · simp [pageLoopF, hle, ho, hstop, hceil, hevs, ha, evBelongs, hck2, hs, hb]
            · simp [pageLoopF, hle, ho, hstop, hceil, hs2]
            · simp [pageLoopF, hle, ho, hstop, hceil, hb2]
    · refine ⟨?_, ?_, ?_⟩ <;> simp [pageLoopF, hle, hs, hb]

theorem getLast_setLast (m : List ((String × String) × Nat))
    (k : String × String) (v : Nat) : getLast (setLast m k v) k = some v := by
  simp [setLast, getLast]

theorem ckptAmended_append (a b : List Ev) (m : List ((String × String) × Nat)) :
    ckptOffsetInvariantAmended (a ++ b) m =
      (ckptOffsetInvariantAmended a m &&
        ckptOffsetInvariantAmended b (savedState a m)) := by
  induction a generalizing m with
  | nil => simp [ckptOffsetInvariantAmended, savedState]
  | cons e t ih =>
    cases e with
    | save ck =>
      cases hs : ck.subcategory <;> cases hb : ck.brand <;>
        simp [ckptOffsetInvariantAmended, savedState, hs, hb, ih, Bool.and_assoc]
    | page s1 b1 off k =>
      simp [ckptOffsetInvariantAmended, savedState, ih, Bool.and_assoc]
    | pageDone s1 b1 off f ftc =>
      simp [ckptOffsetInvariantAmended, savedState, ih]
    | probe s1 b1 off =>
      simp [ckptOffsetInvariantAmended, savedState, ih]

theorem pageLoopF_pages_head (env : Env) (cat s b : String) (maxStart : Nat)
    (fuel start page_num ce : Nat) (seen : List String) (st : CSt) :
    (pageOffsets (pageLoopF env cat s b maxStart fuel start page_num ce seen st).1
      s b).head?.all (fun o => o == start) = true := by
  cases fuel with
  | zero => simp [pageLoopF, pageOffsets]
  | succ n =>
    by_cases hle : start ≤ maxStart
    · obtain ⟨l, tail, hl0, hevs, hex, hab, hdone, hck, hck2⟩ :=
        pageStep_shape env cat s b start page_num seen st
      obtain ⟨a, t, rfl⟩ := List.exists_cons_of_ne_nil hl0
      cases ho : (pageStep env cat s b start page_num seen st).2.2.2 with
      | exhausted =>
        have htail := hex ho; subst htail
        simp [pageLoopF, hle, ho, hevs, pageOffsets]
      | aborted =>
        have htail := hab ho; subst htail
        simp [pageLoopF, hle, ho, hevs, pageOffsets]
      | done found seen2 =>
        have htail := hdone found seen2 ho; subst htail
        by_cases hstop : found = 0 ∧ MAX_CONSECUTIVE_EMPTY ≤ ce + 1
        · simp [pageLoopF, hle, ho, hstop, hevs, pageOffsets]
        · by_cases hceil : maxStart < start + RESULTS_PER_PAGE
          · simp [pageLoopF, hle, ho, hstop, hceil, hevs, pageOffsets]
          · simp [pageLoopF, hle, ho, hstop, hceil, hevs, pageOffsets]
    · simp [pageLoopF, hle, pageOffsets]

theorem unitEvents_cons_save (ck : Ckpt) (t : List Ev) (s b : String) :
    unitEvents (Ev.save ck :: t) s b = unitEvents t s b := by
  simp [unitEvents]

theorem unitEvents_cons_pageDone (s b : String) (off f : Nat) (ftc : Bool)
    (t : List Ev) :
    unitEvents (Ev.pageDone s b off f ftc :: t) s b =
      Ev.pageDone s b off f ftc :: unitEvents t s b := by
  simp [unitEvents]

theorem streak_scan_cons_pageDone (s b : String) (off f : Nat) (ftc : Bool)
    (rest : List Ev) (streak : Nat) (lastExh : Bool) :
    emptyStreakStopsAmended (Ev.pageDone s b off f ftc :: rest) streak lastExh =
      emptyStreakStopsAmended rest (if f = 0 then streak + 1 else 0) (!ftc) := rfl

theorem unitEvents_nil (s b : String) : unitEvents [] s b = [] := rfl

theorem unitEvents_map_pages_only (s b : String) (off : Nat) (l : List Nat) :
    unitEvents (l.map (fun k => Ev.page s b off k)) s b =
      l.map (fun k => Ev.page s b off k) := by
  induction l <;> simp_all [unitEvents]

theorem streak_scan_pages_only (s b : String) (off : Nat) (l : List Nat)
    (streak : Nat) (lastExh : Bool) (h : streak < 2 ∨ lastExh = true) :
    emptyStreakStopsAmended (l.map (fun k => Ev.page s b off k)) streak lastExh
      = true := by
  have h2 := streak_scan_pages s b off l [] streak lastExh h
  simpa using h2

theorem pageLoopF_streak (env : Env) (cat s b : String) (maxStart : Nat) :
    ∀ fuel start page_num ce seen st lastExh,
      (ce < 2 ∨ lastExh = true) →
      emptyStreakStopsAmended
        (unitEvents
          (pageLoopF env cat s b maxStart fuel start page_num ce seen st).1 s b)
        ce lastExh = true := by
  intro fuel
  induction fuel with
  | zero =>
    intro start page_num ce seen st lastExh h
    simp [pageLoopF, unitEvents, emptyStreakStopsAmended]
  | succ n ih =>
    intro start page_num ce seen st lastExh h
    by_cases hle : start ≤ maxStart
    · obtain ⟨l, tail, hl0, hevs, hex, hab, hdone, hck, hck2⟩ :=
        pageStep_shape env cat s b start page_num seen st
      cases ho : (pageStep env cat s b start page_num seen st).2.2.2 with
      | exhausted =>
        have htail := hex ho; subst htail
        have hrec := ih (start + RESULTS_PER_PAGE) page_num (ce + 1) seen
          (pageStep env cat s b start page_num seen st).2.2.1 true (Or.inr rfl)
        simp only [pageLoopF, hle, if_true, ho, hevs, List.cons_append,
          List.append_assoc, List.singleton_append, unitEvents_append,
          unitEvents_cons_save, unitEvents_map_pages_only,
          unitEvents_cons_pageDone, unitEvents_nil, List.nil_append]
        rw [streak_scan_pages s b start l _ ce lastExh h,
          streak_scan_cons_pageDone]
        simpa using hrec
      | aborted =>
        have htail := hab ho; subst htail
        simp only [pageLoopF, hle, if_true, ho, hevs, List.cons_append,
          List.append_nil, unitEvents_cons_save, unitEvents_map_pages_only]
        exact streak_scan_pages_only s b start l ce lastExh h
      | done found seen2 =>
        have htail := hdone found seen2 ho; subst htail
        by_cases hstop : found = 0 ∧ MAX_CONSECUTIVE_EMPTY ≤ ce + 1
        · simp only [pageLoopF, hle, if_true, ho]
          rw [if_pos hstop]
          simp only [hevs, List.cons_append, unitEvents_append,
            unitEvents_cons_save, unitEvents_map_pages_only,
            unitEvents_cons_pageDone, unitEvents_nil]
          rw [streak_scan_pages s b start l _ ce lastExh h,
            streak_scan_cons_pageDone]
          rfl
        · by_cases hceil : maxStart < start + RESULTS_PER_PAGE
          · simp only [pageLoopF, hle, if_true, ho]
            rw [if_neg hstop, if_pos hceil]
            simp only [hevs, List.cons_append, unitEvents_append,
              unitEvents_cons_save, unitEvents_map_pages_only,
              unitEvents_cons_pageDone, unitEvents_nil]
            rw [streak_scan_pages s b start l _ ce lastExh h,
              streak_scan_cons_pageDone]
            rfl
          · have hlt : (if found = 0 then ce + 1 else 0) < 2 := by
              by_cases hf : found = 0
              · have h2 : ¬ (MAX_CONSECUTIVE_EMPTY ≤ ce + 1) := fun hc => hstop ⟨hf, hc⟩
                unfold MAX_CONSECUTIVE_EMPTY at h2
                simp only [hf, if_true]
                omega
              · simp [hf]
            have hrec := ih (start + RESULTS_PER_PAGE) (page_num + 1)
              (if found = 0 then ce + 1 else 0) seen2
              (pageStep env cat s b start page_num seen st).2.2.1 false
              (Or.inl hlt)
            simp only [pageLoopF, hle, if_true, ho]
            rw [if_neg hstop, if_neg hceil]
            simp only [hevs, List.cons_append, List.append_assoc,
              List.singleton_append, unitEvents_append, unitEvents_cons_save,
              unitEvents_map_pages_only, unitEvents_cons_pageDone,
              unitEvents_nil, List.nil_append]
            rw [streak_scan_pages s b start l _ ce lastExh h,
              streak_scan_cons_pageDone]
            simpa using hrec
    · simp [pageLoopF, hle, unitEvents, emptyStreakStopsAmended]

theorem c7_scan_cons_save_some (ck : Ckpt) (s b : String) (rest : List Ev)
    (m : List ((String × String) × Nat))
    (hs : ck.subcategory = some s) (hb : ck.brand = some b)
    (hm : ck.start % RESULTS_PER_PAGE = 0) :
    ckptOffsetInvariantAmended (Ev.save ck :: rest) m =
      ckptOffsetInvariantAmended rest (setLast m (s, b) ck.start) := by
  simp [ckptOffsetInvariantAmended, hs, hb, hm]

theorem c7_scan_cons_pageDone (s b : String) (off f : Nat) (ftc : Bool)
    (rest : List Ev) (m : List ((String × String) × Nat)) :
    ckptOffsetInvariantAmended (Ev.pageDone s b off f ftc :: rest) m =
      ckptOffsetInvariantAmended rest m := rfl

theorem pageLoopF_c7 (env : Env) (cat s b : String) (maxStart : Nat) :
    ∀ fuel start page_num ce seen st m,
      st.ck.subcategory = some s → st.ck.brand = some b →
      start % RESULTS_PER_PAGE = 0 → st.ck.start % RESULTS_PER_PAGE = 0 →
      ckptOffsetInvariantAmended
        (pageLoopF env cat s b maxStart fuel start page_num ce seen st).1 m
        = true ∧
      (pageLoopF env cat s b maxStart fuel start page_num ce seen st).2.ck.start %
        RESULTS_PER_PAGE = 0 ∧
      (pageLoopF env cat s b maxStart fuel start page_num ce seen st).2.ck.subcategory
        = some s ∧
      (pageLoopF env cat s b maxStart fuel start page_num ce seen st).2.ck.brand
        = some b := by
  intro fuel
  induction fuel with
  | zero =>
    intro start page_num ce seen st m hs hb h10 hck10
    exact ⟨rfl, hck10, hs, hb⟩
  | succ n ih =>
    intro start page_num ce seen st m hs hb h10 hck10
    by_cases hle : start ≤ maxStart
    · obtain ⟨l, tail, hl0, hevs, hex, hab, hdone, hck, hck2⟩ :=
        pageStep_shape env cat s b start page_num seen st
      have hstart : (pageStep env cat s b start page_num seen st).1.start = start := by
        rw [hck2]
      have hs2 : (pageStep env cat s b start page_num seen st).1.subcategory = some s := by
        rw [hck2]; exact hs
      have hb2 : (pageStep env cat s b start page_num seen st).1.brand = some b := by
        rw [hck2]; exact hb
      have hm2 : (pageStep env cat s b start page_num seen st).1.start %
          RESULTS_PER_PAGE = 0 := by rw [hstart]; exact h10
      have hstate_s :
          (pageStep env cat s b start page_num seen st).2.2.1.ck.subcategory = some s := by
        rw [hck]; exact hs2
      have hstate_b :
          (pageStep env cat s b start page_num seen st).2.2.1.ck.brand = some b := by
        rw [hck]; exact hb2
      have hstate_10 :
          (pageStep env cat s b start page_num seen st).2.2.1.ck.start %
            RESULTS_PER_PAGE = 0 := by rw [hck]; exact hm2
      have h10n : (start + RESULTS_PER_PAGE) % RESULTS_PER_PAGE = 0 := by
        rw [Nat.add_mod_right]; exact h10
      cases ho : (pageStep env cat s b start page_num seen st).2.2.2 with
      | exhausted =>
        have htail := hex ho; subst htail
        obtain ⟨ha, hr10, hrs, hrb⟩ := ih (start + RESULTS_PER_PAGE) page_num
          (ce + 1) seen (pageStep env cat s b start page_num seen st).2.2.1
          (setLast m (s, b) start) hstate_s hstate_b h10n hstate_10
        refine ⟨?_, ?_, ?_, ?_⟩
        · simp only [pageLoopF, hle, if_true, ho, hevs, List.cons_append,
            List.append_assoc, List.singleton_append]
          rw [c7_scan_cons_save_some _ s b _ m hs2 hb2 hm2, hstart]
          rw [c7_scan_pages s b start l _ _ (getLast_setLast m (s, b) start)]
          rw [c7_scan_cons_pageDone]
          exact ha
        · simp only [pageLoopF, hle, if_true, ho]; exact hr10
        · simp only [pageLoopF, hle, if_true, ho]; exact hrs
        · simp only [pageLoopF, hle, if_true, ho]; exact hrb
      | aborted =>
        have htail := hab ho; subst htail
        refine ⟨?_, ?_, ?_, ?_⟩
        · simp only [pageLoopF, hle, if_true, ho, hevs, List.cons_append,
            List.append_nil]
          rw [c7_scan_cons_save_some _ s b _ m hs2 hb2 hm2, hstart]
          have h2 := c7_scan_pages s b start l []
            (setLast m (s, b) start) (getLast_setLast m (s, b) start)
          simpa using h2
        · simp only [pageLoopF, hle, if_true, ho]; exact hstate_10
        · simp only [pageLoopF, hle, if_true, ho]; exact hstate_s
        · simp only [pageLoopF, hle, if_true, ho]; exact hstate_b
      | done found seen2 =>
        have htail := hdone found seen2 ho; subst htail
        by_cases hstop : found = 0 ∧ MAX_CONSECUTIVE_EMPTY ≤ ce + 1
        · refine ⟨?_, ?_, ?_, ?_⟩
          · simp only [pageLoopF, hle, if_true, ho]
            rw [if_pos hstop]
            simp only [hevs, List.cons_append]
            rw [c7_scan_cons_save_some _ s b _ m hs2 hb2 hm2, hstart]
            rw [c7_scan_pages s b start l _ _ (getLast_setLast m (s, b) start)]
            rfl
          · simp only [pageLoopF, hle, if_true, ho]
            rw [if_pos hstop]; exact hstate_10
          · simp only [pageLoopF, hle, if_true, ho]
            rw [if_pos hstop]; exact hstate_s
          · simp only [pageLoopF, hle, if_true, ho]
            rw [if_pos hstop]; exact hstate_b
        · by_cases hceil : maxStart < start + RESULTS_PER_PAGE
          · refine ⟨?_, ?_, ?_, ?_⟩
            · simp only [pageLoopF, hle, if_true, ho]
              rw [if_neg hstop, if_pos hceil]
              simp only [hevs, List.cons_append]
              rw [c7_scan_cons_save_some _ s b _ m hs2 hb2 hm2, hstart]
              rw [c7_scan_pages s b start l _ _ (getLast_setLast m (s, b) start)]
              rfl
            · simp only [pageLoopF, hle, if_true, ho]
              rw [if_neg hstop, if_pos hceil]; exact hstate_10
            · simp only [pageLoopF, hle, if_true, ho]
              rw [if_neg hstop, if_pos hceil]; exact hstate_s
            · simp only [pageLoopF, hle, if_true, ho]
              rw [if_neg hstop, if_pos hceil]; exact hstate_b
          · obtain ⟨ha, hr10, hrs, hrb⟩ := ih (start + RESULTS_PER_PAGE)
              (page_num + 1) (if found = 0 then ce + 1 else 0) seen2
              (pageStep env cat s b start page_num seen st).2.2.1
              (setLast m (s, b) start) hstate_s hstate_b h10n hstate_10
            refine ⟨?_, ?_, ?_, ?_⟩
            · simp only [pageLoopF, hle, if_true, ho]
              rw [if_neg hstop, if_neg hceil]
              simp only [hevs, List.cons_append, List.append_assoc,
                List.singleton_append]
              rw [c7_scan_cons_save_some _ s b _ m hs2 hb2 hm2, hstart]
              rw [c7_scan_pages s b start l _ _ (getLast_setLast m (s, b) start)]
              rw [c7_scan_cons_pageDone]
              exact ha
            · simp only [pageLoopF, hle, if_true, ho]
              rw [if_neg hstop, if_neg hceil]; exact hr10
            · simp only [pageLoopF, hle, if_true, ho]
              rw [if_neg hstop, if_neg hceil]; exact hrs
            · simp only [pageLoopF, hle, if_true, ho]
              rw [if_neg hstop, if_neg hceil]; exact hrb
    · exact ⟨by simp [pageLoopF, hle, ckptOffsetInvariantAmended],
        by simp [pageLoopF, hle, hck10], by simp [pageLoopF, hle, hs],
        by simp [pageLoopF, hle, hb]⟩

/-! ### Per-unit facts about processBrand -/

theorem pageOffsets_nil (s b : String) : pageOffsets [] s b = [] := rfl

theorem pageOffsets_cons_probe (s1 b1 s b : String) (off : Nat) (t : List Ev) :
    pageOffsets (Ev.probe s1 b1 off :: t) s b = pageOffsets t s b := by
  simp [pageOffsets]

theorem pageOffsets_cons_save (ck : Ckpt) (s b : String) (t : List Ev) :
    pageOffsets (Ev.save ck :: t) s b = pageOffsets t s b := by
  simp [pageOffsets]

theorem unitEvents_cons_probe_self (s b : String) (off : Nat) (t : List Ev) :
    unitEvents (Ev.probe s b off :: t) s b =
      Ev.probe s b off :: unitEvents t s b := by
  simp [unitEvents]

theorem streak_scan_cons_probe (s b : String) (off : Nat) (rest : List Ev)
    (streak : Nat) (lastExh : Bool) :
    emptyStreakStopsAmended (Ev.probe s b off :: rest) streak lastExh =
      emptyStreakStopsAmended rest streak lastExh := rfl

theorem c7_scan_cons_probe (s b : String) (off : Nat) (rest : List Ev)
    (m : List ((String × String) × Nat)) :
    ckptOffsetInvariantAmended (Ev.probe s b off :: rest) m =
      ckptOffsetInvariantAmended rest m := rfl

theorem processBrand_belongs (env : Env) (cat s b : String) (n p : Nat)
    (st : CSt) :
    (processBrand env cat s b n p st).1.all (evBelongs s b) = true ∧
    (processBrand env cat s b n p st).2.ck.subcategory = some s ∧
    (processBrand env cat s b n p st).2.ck.brand = some b := by
  obtain ⟨ha, hs2, hb2⟩ := pageLoopF_belongs env cat s b
    (computeMaxStart (env.probeResp s b))
    (computeMaxStart (env.probeResp s b) + RESULTS_PER_PAGE - n) n p 0
    (if env.loadFail s b then [] else load_saved_urls cat s b st.db)
    { st with ck := { st.ck with
        subcategory := some s, brand := some b, start := n, page_num := p } } rfl rfl
  refine ⟨?_, ?_, ?_⟩ <;>
    simp [processBrand, evBelongs, ha, hs2, hb2]

theorem processBrand_unitEvents_foreign (env : Env) (cat s b : String)
    (n p : Nat) (st : CSt) (s2 b2 : String) (hne : ¬ (s = s2 ∧ b = b2)) :
    unitEvents (processBrand env cat s b n p st).1 s2 b2 = [] :=
  unitEvents_eq_nil_of_belongs _ s b s2 b2 (processBrand_belongs env cat s b n p st).1 hne

theorem processBrand_pageOffsets_foreign (env : Env) (cat s b : String)
    (n p : Nat) (st : CSt) (s2 b2 : String) (hne : ¬ (s = s2 ∧ b = b2)) :
    pageOffsets (processBrand env cat s b n p st).1 s2 b2 = [] :=
  pageOffsets_eq_nil_of_belongs _ s b s2 b2 (processBrand_belongs env cat s b n p st).1 hne

theorem processBrand_noProvider (env : Env) (cat s b : String) (n p : Nat)
    (st : CSt) (q : String → String → Bool) (hq : q s b = false) :
    noProviderEventsFor (processBrand env cat s b n p st).1 q = true :=
  noProviderEventsFor_of_belongs _ s b q (processBrand_belongs env cat s b n p st).1 hq

theorem processBrand_pages_head (env : Env) (cat s b : String) (n p : Nat)
    (st : CSt) :
    (pageOffsets (processBrand env cat s b n p st).1 s b).head?.all
      (fun o => o == n) = true := by
  have h := pageLoopF_pages_head env cat s b
    (computeMaxStart (env.probeResp s b))
    (computeMaxStart (env.probeResp s b) + RESULTS_PER_PAGE - n) n p 0
    (if env.loadFail s b then [] else load_saved_urls cat s b st.db)
    { st with ck := { st.ck with
        subcategory := some s, brand := some b, start := n, page_num := p } }
  simp only [processBrand, pageOffsets_cons_probe, pageOffsets_append,
    pageOffsets_cons_save, pageOffsets_nil, List.append_nil]
  exact h

theorem processBrand_probe (env : Env) (cat s b : String) (n p : Nat)
    (st : CSt) :
    Ev.probe s b 0 ∈ (processBrand env cat s b n p st).1 := by
  simp [processBrand]

theorem processBrand_streak (env : Env) (cat s b : String) (n p : Nat)
    (st : CSt) :
    emptyStreakStopsAmended (unitEvents (processBrand env cat s b n p st).1 s b)
      0 false = true := by
  have h := pageLoopF_streak env cat s b
    (computeMaxStart (env.probeResp s b))
    (computeMaxStart (env.probeResp s b) + RESULTS_PER_PAGE - n) n p 0
    (if env.loadFail s b then [] else load_saved_urls cat s b st.db)
    { st with ck := { st.ck with
        subcategory := some s, brand := some b, start := n, page_num := p } } false (Or.inl (by omega))
  simp only [processBrand, unitEvents_cons_probe_self, unitEvents_append,
    unitEvents_cons_save, unitEvents_nil, List.append_nil,
    streak_scan_cons_probe]
  exact h

theorem processBrand_c7 (env : Env) (cat s b : String) (n p : Nat) (st : CSt)
    (m : List ((String × String) × Nat)) (h10 : n % RESULTS_PER_PAGE = 0) :
    ckptOffsetInvariantAmended (processBrand env cat s b n p st).1 m = true ∧
    (processBrand env cat s b n p st).2.ck.start % RESULTS_PER_PAGE = 0 ∧
    (processBrand env cat s b n p st).2.ck.subcategory = some s ∧
    (processBrand env cat s b n p st).2.ck.brand = some b := by
  obtain ⟨ha, hr10, hrs, hrb⟩ := pageLoopF_c7 env cat s b
    (computeMaxStart (env.probeResp s b))
    (computeMaxStart (env.probeResp s b) + RESULTS_PER_PAGE - n) n p 0
    (if env.loadFail s b then [] else load_saved_urls cat s b st.db)
    { st with ck := { st.ck with
        subcategory := some s, brand := some b, start := n, page_num := p } } m rfl rfl h10 h10
  refine ⟨?_, by simp [processBrand, hr10], by simp [processBrand, hrs],
    by simp [processBrand, hrb]⟩
  simp only [processBrand, c7_scan_cons_probe, ckptAmended_append]
  rw [Bool.and_eq_true]
  constructor
  · exact ha
  · rw [c7_scan_cons_save_some _ s b _ _ hrs hrb hr10]
    rfl

/-! ### Brand-loop and subcategory-loop facts -/

theorem brandLoop_unitEvents_foreign (env : Env) (cat : String)
    (r : Option Resume) (s2 : String) (blAll : List String) (s b : String)
    (hs : ¬ (s2 = s)) :
    ∀ l skip st, unitEvents (brandLoop env cat r s2 blAll l skip st).1 s b = [] := by
  intro l
  induction l with
  | nil => intro skip st; rfl
  | cons b1 t ih =>
    intro skip st
    have hf : ∀ n p st1, unitEvents (processBrand env cat s2 b1 n p st1).1 s b = [] :=
      fun n p st1 =>
        processBrand_unitEvents_foreign env cat s2 b1 n p st1 s b (fun hc => hs hc.1)
    by_cases hskip : skip = true
    · by_cases h1 : ((some s2 == rSub r) && (some b1 != rBrand r) &&
        (match idxOf blAll b1, (rBrand r).bind (idxOf blAll) with
         | some i, some j => decide (i < j)
         | _, _ => false)) = true
      · simp [brandLoop, hskip, h1, unitEvents_cons_save, ih]
      · by_cases h2 : ((some s2 == rSub r) && (some b1 == rBrand r)) = true
        · simp [brandLoop, hskip, h1, h2, unitEvents_append, ih, hf]
        · simp [brandLoop, hskip, h1, h2, unitEvents_append, ih, hf]
    · simp [brandLoop, hskip, unitEvents_append, ih, hf]

theorem brandLoop_unitEvents_foreignBrand (env : Env) (cat : String)
    (r : Option Resume) (s2 : String) (blAll : List String) (b : String) :
    ∀ l skip st, b ∉ l →
      unitEvents (brandLoop env cat r s2 blAll l skip st).1 s2 b = [] := by
  intro l
  induction l with
  | nil => intro skip st _; rfl
  | cons b1 t ih =>
    intro skip st hb
    have hb1 : ¬ (b1 = b) := fun hc => hb (by simp [hc])
    have hbt : b ∉ t := fun hc => hb (by simp [hc])
    have hf : ∀ n p st1, unitEvents (processBrand env cat s2 b1 n p st1).1 s2 b = [] :=
      fun n p st1 =>
        processBrand_unitEvents_foreign env cat s2 b1 n p st1 s2 b
          (fun hc => hb1 hc.2)
    by_cases hskip : skip = true
    · by_cases h1 : ((some s2 == rSub r) && (some b1 != rBrand r) &&
        (match idxOf blAll b1, (rBrand r).bind (idxOf blAll) with
         | some i, some j => decide (i < j)
         | _, _ => false)) = true
      · simp [brandLoop, hskip, h1, unitEvents_cons_save, ih _ _ hbt]
      · by_cases h2 : ((some s2 == rSub r) && (some b1 == rBrand r)) = true
        · simp [brandLoop, hskip, h1, h2, unitEvents_append, ih _ _ hbt, hf]
        · simp [brandLoop, hskip, h1, h2, unitEvents_append, ih _ _ hbt, hf]
    · simp [brandLoop, hskip, unitEvents_append, ih _ _ hbt, hf]

theorem brandLoop_streak (env : Env) (cat : String) (r : Option Resume)
    (s2 : String) (blAll : List String) (s b : String) :
    ∀ l skip st, l.Nodup →
      emptyStreakStopsAmended
        (unitEvents (brandLoop env cat r s2 blAll l skip st).1 s b) 0 false
        = true := by
  intro l
  induction l with
  | nil => intro skip st _; rfl
  | cons b1 t ih =>
    intro skip st hnd
    rw [List.nodup_cons] at hnd
    by_cases hsb : s2 = s ∧ b1 = b
    · obtain ⟨rfl, rfl⟩ := hsb
      have htail : ∀ skip2 st2,
          unitEvents (brandLoop env cat r s2 blAll t skip2 st2).1 s2 b1 = [] :=
        fun skip2 st2 =>
          brandLoop_unitEvents_foreignBrand env cat r s2 blAll b1 t skip2 st2 hnd.1
      by_cases hskip : skip = true
      · by_cases h1 : ((some s2 == rSub r) && (some b1 != rBrand r) &&
          (match idxOf blAll b1, (rBrand r).bind (idxOf blAll) with
           | some i, some j => decide (i < j)
           | _, _ => false)) = true
        · simp [brandLoop, hskip, h1, unitEvents_cons_save, htail,
            emptyStreakStopsAmended]
        · by_cases h2 : ((some s2 == rSub r) && (some b1 == rBrand r)) = true
          · simp [brandLoop, hskip, h1, h2, unitEvents_append, htail,
              processBrand_streak]
          · simp [brandLoop, hskip, h1, h2, unitEvents_append, htail,
              processBrand_streak]
      · simp [brandLoop, hskip, unitEvents_append, htail, processBrand_streak]
    · have hf : ∀ n p st1, unitEvents (processBrand env cat s2 b1 n p st1).1 s b = [] :=
        fun n p st1 =>
          processBrand_unitEvents_foreign env cat s2 b1 n p st1 s b hsb
      by_cases hskip : skip = true
      · by_cases h1 : ((some s2 == rSub r) && (some b1 != rBrand r) &&
          (match idxOf blAll b1, (rBrand r).bind (idxOf blAll) with
           | some i, some j => decide (i < j)
           | _, _ => false)) = true
        · simp [brandLoop, hskip, h1, unitEvents_cons_save, ih _ _ hnd.2]
        · by_cases h2 : ((some s2 == rSub r) && (some b1 == rBrand r)) = true
          · simp [brandLoop, hskip, h1, h2, unitEvents_append, ih _ _ hnd.2, hf]
          · simp [brandLoop, hskip, h1, h2, unitEvents_append, ih _ _ hnd.2, hf]
      · simp [brandLoop, hskip, unitEvents_append, ih _ _ hnd.2, hf]

theorem subLoop_unitEvents_foreign (env : Env) (cat : String)
    (r : Option Resume) (s b : String) :
    ∀ wl skip st, (∀ e ∈ wl, ¬ (e.1 = s)) →
      unitEvents (subLoop env cat r wl skip st).1 s b = [] := by
  intro wl
  induction wl with
  | nil => intro skip st _; rfl
  | cons e t ih =>
    intro skip st h
    obtain ⟨s2, bl⟩ := e
    have hs2 : ¬ (s2 = s) := h (s2, bl) (by simp)
    have ht : ∀ e2 ∈ t, ¬ (e2.1 = s) := fun e2 he2 => h e2 (by simp [he2])
    by_cases hg : (skip && (some s2 != rSub r)) = true
    · simp [subLoop, hg, ih _ _ ht]
    · simp [subLoop, hg, unitEvents_append, ih _ _ ht,
        brandLoop_unitEvents_foreign env cat r s2 bl s b hs2]

theorem subLoop_streak (env : Env) (cat : String) (r : Option Resume)
    (s b : String) :
    ∀ wl skip st, (wl.map Prod.fst).Nodup → (∀ e ∈ wl, e.2.Nodup) →
      emptyStreakStopsAmended
        (unitEvents (subLoop env cat r wl skip st).1 s b) 0 false = true := by
  intro wl
  induction wl with
  | nil => intro skip st _ _; rfl
  | cons e t ih =>
    intro skip st hk hbl
    obtain ⟨s2, bl⟩ := e
    rw [List.map_cons, List.nodup_cons] at hk
    have hblt : ∀ e2 ∈ t, e2.2.Nodup := fun e2 he2 => hbl e2 (by simp [he2])
    by_cases hg : (skip && (some s2 != rSub r)) = true
    · simp [subLoop, hg, ih _ _ hk.2 hblt]
    · by_cases hs2 : s2 = s
      · subst hs2
        have htail : ∀ skip2 st2,
            unitEvents (subLoop env cat r t skip2 st2).1 s2 b = [] := by
          intro skip2 st2
          refine subLoop_unitEvents_foreign env cat r s2 b t skip2 st2 ?_
          intro e2 he2 hc
          have hm : e2.1 ∈ List.map Prod.fst t := List.mem_map_of_mem Prod.fst he2
          rw [hc] at hm
          exact hk.1 hm
        simp [subLoop, hg, unitEvents_append, htail,
          brandLoop_streak env cat r s2 bl s2 b bl _ _ (hbl (s2, bl) (by simp))]
      · simp [subLoop, hg, unitEvents_append, ih _ _ hk.2 hblt,
          brandLoop_unitEvents_foreign env cat r s2 bl s b hs2]

theorem c7_scan_cons_save_any (ck : Ckpt) (rest : List Ev)
    (m : List ((String × String) × Nat))
    (hm : ck.start % RESULTS_PER_PAGE = 0)
    (h : ∀ m2, ckptOffsetInvariantAmended rest m2 = true) :
    ckptOffsetInvariantAmended (Ev.save ck :: rest) m = true := by
  cases hs : ck.subcategory <;> cases hb : ck.brand <;>
    simp [ckptOffsetInvariantAmended, hs, hb, hm, h]

theorem brandLoop_c7 (env : Env) (cat : String) (r : Option Resume)
    (s2 : String) (blAll : List String)
    (hr10 : rStart r % RESULTS_PER_PAGE = 0) :
    ∀ l skip st, st.ck.start % RESULTS_PER_PAGE = 0 →
      (∀ m, ckptOffsetInvariantAmended
        (brandLoop env cat r s2 blAll l skip st).1 m = true) ∧
      (brandLoop env cat r s2 blAll l skip st).2.1.ck.start %
        RESULTS_PER_PAGE = 0 := by
  intro l
  induction l with
  | nil => intro skip st h10; exact ⟨fun m => rfl, h10⟩
  | cons b1 t ih =>
    intro skip st h10
    have hz : (0 : Nat) % RESULTS_PER_PAGE = 0 := by decide
    by_cases hskip : skip = true
    · by_cases h1 : ((some s2 == rSub r) && (some b1 != rBrand r) &&
        (match idxOf blAll b1, (rBrand r).bind (idxOf blAll) with
         | some i, some j => decide (i < j)
         | _, _ => false)) = true
      · obtain ⟨iha, ih10⟩ := ih true { st with ckFile := some st.ck } h10
        have hred : (brandLoop env cat r s2 blAll (b1 :: t) skip st).1 =
            Ev.save st.ck ::
              (brandLoop env cat r s2 blAll t true
                { st with ckFile := some st.ck }).1 := by
          simp [brandLoop, hskip, h1]
        have hred2 : (brandLoop env cat r s2 blAll (b1 :: t) skip st).2.1 =
            (brandLoop env cat r s2 blAll t true
              { st with ckFile := some st.ck }).2.1 := by
          simp [brandLoop, hskip, h1]
        refine ⟨fun m => ?_, ?_⟩
        · rw [hred]
          exact c7_scan_cons_save_any st.ck _ m h10 iha
        · rw [hred2]; exact ih10
      · by_cases h2 : ((some s2 == rSub r) && (some b1 == rBrand r)) = true
        · obtain ⟨pba, pb10, hpbs, hpbb⟩ := processBrand_c7 env cat s2 b1
            (rStart r) (rPage r) st [] hr10
          obtain ⟨iha, ih10⟩ := ih false
            (processBrand env cat s2 b1 (rStart r) (rPage r) st).2 pb10
          have hred : (brandLoop env cat r s2 blAll (b1 :: t) skip st).1 =
              (processBrand env cat s2 b1 (rStart r) (rPage r) st).1 ++
                (brandLoop env cat r s2 blAll t false
                  (processBrand env cat s2 b1 (rStart r) (rPage r) st).2).1 := by
            simp [brandLoop, hskip, h1, h2]
          have hred2 : (brandLoop env cat r s2 blAll (b1 :: t) skip st).2.1 =
              (brandLoop env cat r s2 blAll t false
                (processBrand env cat s2 b1 (rStart r) (rPage r) st).2).2.1 := by
            simp [brandLoop, hskip, h1, h2]
          refine ⟨fun m => ?_, ?_⟩
          · rw [hred, ckptAmended_append, Bool.and_eq_true]
            exact ⟨(processBrand_c7 env cat s2 b1 (rStart r) (rPage r) st m
              hr10).1, iha _⟩
          · rw [hred2]; exact ih10
        · obtain ⟨pba, pb10, hpbs, hpbb⟩ := processBrand_c7 env cat s2 b1 0 0 st [] hz
          obtain ⟨iha, ih10⟩ := ih true (processBrand env cat s2 b1 0 0 st).2 pb10
          have hred : (brandLoop env cat r s2 blAll (b1 :: t) skip st).1 =
              (processBrand env cat s2 b1 0 0 st).1 ++
                (brandLoop env cat r s2 blAll t true
                  (processBrand env cat s2 b1 0 0 st).2).1 := by
            simp [brandLoop, hskip, h1, h2]
          have hred2 : (brandLoop env cat r s2 blAll (b1 :: t) skip st).2.1 =
              (brandLoop env cat r s2 blAll t true
                (processBrand env cat s2 b1 0 0 st).2).2.1 := by
            simp [brandLoop, hskip, h1, h2]
          refine ⟨fun m => ?_, ?_⟩
          · rw [hred, ckptAmended_append, Bool.and_eq_true]
            exact ⟨(processBrand_c7 env cat s2 b1 0 0 st m hz).1, iha _⟩
          · rw [hred2]; exact ih10
    · obtain ⟨pba, pb10, hpbs, hpbb⟩ := processBrand_c7 env cat s2 b1 0 0 st [] hz
      obtain ⟨iha, ih10⟩ := ih false (processBrand env cat s2 b1 0 0 st).2 pb10
      have hred : (brandLoop env cat r s2 blAll (b1 :: t) skip st).1 =
          (processBrand env cat s2 b1 0 0 st).1 ++
            (brandLoop env cat r s2 blAll t false
              (processBrand env cat s2 b1 0 0 st).2).1 := by
        simp [brandLoop, hskip]
      have hred2 : (brandLoop env cat r s2 blAll (b1 :: t) skip st).2.1 =
          (brandLoop env cat r s2 blAll t false
            (processBrand env cat s2 b1 0 0 st).2).2.1 := by
        simp [brandLoop, hskip]
      refine ⟨fun m => ?_, ?_⟩
      · rw [hred, ckptAmended_append, Bool.and_eq_true]
        exact ⟨(processBrand_c7 env cat s2 b1 0 0 st m hz).1, iha _⟩
      · rw [hred2]; exact ih10

theorem subLoop_c7 (env : Env) (cat : String) (r : Option Resume)
    (hr10 : rStart r % RESULTS_PER_PAGE = 0) :
    ∀ wl skip st, st.ck.start % RESULTS_PER_PAGE = 0 →
      (∀ m, ckptOffsetInvariantAmended
        (subLoop env cat r wl skip st).1 m = true) ∧
      (subLoop env cat r wl skip st).2.1.ck.start % RESULTS_PER_PAGE = 0 := by
  intro wl
  induction wl with
  | nil => intro skip st h10; exact ⟨fun m => rfl, h10⟩
  | cons e t ih =>
    intro skip st h10
    obtain ⟨s2, bl⟩ := e
    by_cases hg : (skip && (some s2 != rSub r)) = true
    · obtain ⟨iha, ih10⟩ := ih skip st h10
      have hred : (subLoop env cat r ((s2, bl) :: t) skip st).1 =
          (subLoop env cat r t skip st).1 := by
        simp [subLoop, hg]
      have hred2 : (subLoop env cat r ((s2, bl) :: t) skip st).2.1 =
          (subLoop env cat r t skip st).2.1 := by
        simp [subLoop, hg]
      exact ⟨fun m => by rw [hred]; exact iha m, by rw [hred2]; exact ih10⟩
    · obtain ⟨bla, bl10⟩ := brandLoop_c7 env cat r s2 bl hr10 bl skip st h10
      obtain ⟨iha, ih10⟩ := ih (brandLoop env cat r s2 bl bl skip st).2.2
        (brandLoop env cat r s2 bl bl skip st).2.1 bl10
      have hred : (subLoop env cat r ((s2, bl) :: t) skip st).1 =
          (brandLoop env cat r s2 bl bl skip st).1 ++
            (subLoop env cat r t (brandLoop env cat r s2 bl bl skip st).2.2
              (brandLoop env cat r s2 bl bl skip st).2.1).1 := by
        simp [subLoop, hg]
      have hred2 : (subLoop env cat r ((s2, bl) :: t) skip st).2.1 =
          (subLoop env cat r t (brandLoop env cat r s2 bl bl skip st).2.2
            (brandLoop env cat r s2 bl bl skip st).2.1).2.1 := by
        simp [subLoop, hg]
      refine ⟨fun m => ?_, ?_⟩
      · rw [hred, ckptAmended_append, Bool.and_eq_true]
        exact ⟨bla m, iha _⟩
      · rw [hred2]; exact ih10

/-- C3 amended. Empty-streak termination as the code implements it: for every
environment, work list (with distinct subcategories and distinct brands per
subcategory), resume record and unit, in the unit's event stream a page
request is never issued after a zero-yield streak of length
MAX_CONSECUTIVE_EMPTY (2) whose latest attempt was actually fetched; an
attempt whose retries were exhausted merely increments the streak counter and
never stops the unit by itself, so pagination may continue past a streak made
of exhausted attempts. -/
theorem empty_streak_termination_amended (env : Env) (sheet cat : String)
    (wl : List (String × List String)) (r : Option Resume) (creds : Creds)
    (db0 : List UrlRow) (ckf0 : Option Ckpt) (s b : String)
    (hk : (wl.map Prod.fst).Nodup) (hbl : ∀ e ∈ wl, e.2.Nodup) :
    emptyStreakStopsAmended
      (unitEvents (crawl env sheet cat wl r creds db0 ckf0).1 s b) 0 false
      = true := by
  by_cases hcred : credsOk creds = true
  · simp only [crawl, hcred, Bool.not_true, Bool.false_eq_true, if_false]
    exact subLoop_streak env cat r s b wl _ _ hk hbl
  · simp only [crawl]
    rw [if_pos (by simp [hcred])]
    rfl

/-- Witness for C3 amended on the concrete empty-streak run. -/
theorem empty_streak_termination_amended_witness :
    emptyStreakStopsAmended (unitEvents trStreak "Bags" "Gucci") 0 false = true :=
  empty_streak_termination_amended envStreak "S1" "Cat" [("Bags", ["Gucci"])]
    Option.none credsSome [] Option.none "Bags" "Gucci" (by decide) (by decide)

/-- C3 counterexample. The claim as stated fails on the code: in the concrete
empty-streak run the page attempts at offsets 0 and 10 both exhaust their
retries (two consecutive page attempts yielding zero newly stored urls), yet
the loop still fetches offset 20 - the exhausted-retries path increments the
empty counter without ever checking it. -/
theorem empty_streak_counterexample :
    emptyStreakStops (unitEvents trStreak "Bags" "Gucci") 0 = false := by decide

/-- C7 amended. Checkpoint offset invariant as the code implements it: in
every run (with the resumed start a multiple of the page size), every
persisted checkpoint start is a non-negative multiple of the page size (10),
and every page request is issued at exactly the offset most recently persisted
for its unit - the checkpoint written at the top of each iteration holds the
offset about to be fetched. The clause of the original claim dropped here is
the one the counterexample refutes: the checkpoint written by the per-unit
finally block repeats the offset of the unit's last attempted page rather than
the next offset. -/
theorem ckpt_offset_invariant_amended_thm (env : Env) (sheet cat : String)
    (wl : List (String × List String)) (r : Option Resume) (creds : Creds)
    (db0 : List UrlRow) (ckf0 : Option Ckpt)
    (hr : rStart r % RESULTS_PER_PAGE = 0) :
    ckptOffsetInvariantAmended (crawl env sheet cat wl r creds db0 ckf0).1 []
      = true := by
  by_cases hcred : credsOk creds = true
  · simp only [crawl, hcred, Bool.not_true, Bool.false_eq_true, if_false]
    refine ((subLoop_c7 env cat r hr wl _ _ ?_).1 [])
    cases r with
    | none => rfl
    | some rs =>
      by_cases hs : (rs.sheet == sheet) = true
      · simp only [hs, if_true]
        exact hr
      · simp [hs]
  · simp only [crawl]
    rw [if_pos (by simp [hcred])]
    rfl

/-- Witness for C7 amended on the concrete unit-completion run. -/
theorem ckpt_offset_invariant_amended_witness :
    ckptOffsetInvariantAmended trCeil [] = true :=
  ckpt_offset_invariant_amended_thm envCeil "S1" "Cat" [("Bags", ["Gucci"])]
    Option.none credsSome [] Option.none (by decide)

/-- C7 counterexample. The claim as stated fails on the code: in the concrete
unit-completion run the page at offset 0 completes (one url found, ceiling 0
reached), and the per-unit finally block then persists a checkpoint whose
start is 0 - exactly the offset of the last completed fetch, not the next
offset to fetch. -/
theorem ckpt_offset_counterexample :
    ckptOffsetInvariant trCeil [] [] = false := by decide

/-! ### Resume-skip facts -/

theorem idxOf_append_of_mem (x : String) :
    ∀ (l rest : List String), x ∈ l →
      ∃ i, idxOf (l ++ rest) x = some i ∧ i < l.length := by
  intro l
  induction l with
  | nil => intro rest hx; cases hx
  | cons a t ih =>
    intro rest hx
    by_cases ha : (a == x) = true
    · exact ⟨0, by simp [idxOf, ha], by simp⟩
    · have hx2 : x ∈ t := by
        rcases List.mem_cons.mp hx with h | h
        · exact absurd (by simp [h]) ha
        · exact h
      obtain ⟨i, hi, hlt⟩ := ih rest hx2
      refine ⟨i + 1, by simp [idxOf, ha, hi], by simp; omega⟩

theorem idxOf_middle (B : String) :
    ∀ (bpre bpost : List String), B ∉ bpre →
      idxOf (bpre ++ B :: bpost) B = some bpre.length := by
  intro bpre
  induction bpre with
  | nil => intro bpost _; simp [idxOf]
  | cons a t ih =>
    intro bpost hB
    have ha : ¬ (a == B) = true := by
      simp only [beq_iff_eq]
      intro h
      exact hB (by simp [h])
    have hBt : B ∉ t := fun h => hB (by simp [h])
    simp [idxOf, ha, ih bpost hBt]

theorem noProviderEventsFor_cons_save (ck : Ckpt) (t : List Ev)
    (q : String → String → Bool) :
    noProviderEventsFor (Ev.save ck :: t) q = noProviderEventsFor t q := by
  simp [noProviderEventsFor]

theorem brandLoop_skip_false (env : Env) (cat : String) (r : Option Resume)
    (s2 : String) (blAll : List String) :
    ∀ l st, (brandLoop env cat r s2 blAll l false st).2.2 = false := by
  intro l
  induction l with
  | nil => intro st; rfl
  | cons b1 t ih => intro st; simp [brandLoop, ih]

theorem brandLoop_fresh_noProvider (env : Env) (cat : String)
    (r : Option Resume) (s2 : String) (blAll : List String)
    (q : String → String → Bool) :
    ∀ l st, (∀ b2 ∈ l, q s2 b2 = false) →
      noProviderEventsFor (brandLoop env cat r s2 blAll l false st).1 q
        = true := by
  intro l
  induction l with
  | nil => intro st _; rfl
  | cons b1 t ih =>
    intro st hq
    have ht : ∀ b2 ∈ t, q s2 b2 = false := fun b2 hb2 => hq b2 (by simp [hb2])
    simp [brandLoop, noProviderEventsFor_append, ih _ ht,
      processBrand_noProvider env cat s2 b1 0 0 st q (hq b1 (by simp))]

theorem brandLoop_pageOffsets_foreignBrand (env : Env) (cat : String)
    (r : Option Resume) (s2 : String) (blAll : List String) (b : String) :
    ∀ l skip st, b ∉ l →
      pageOffsets (brandLoop env cat r s2 blAll l skip st).1 s2 b = [] := by
  intro l
  induction l with
  | nil => intro skip st _; rfl
  | cons b1 t ih =>
    intro skip st hb
    have hb1 : ¬ (b1 = b) := fun hc => hb (by simp [hc])
    have hbt : b ∉ t := fun hc => hb (by simp [hc])
    have hf : ∀ n p st1, pageOffsets (processBrand env cat s2 b1 n p st1).1 s2 b = [] :=
      fun n p st1 =>
        processBrand_pageOffsets_foreign env cat s2 b1 n p st1 s2 b
          (fun hc => hb1 hc.2)
    by_cases hskip : skip = true
    · by_cases h1 : ((some s2 == rSub r) && (some b1 != rBrand r) &&
        (match idxOf blAll b1, (rBrand r).bind (idxOf blAll) with
         | some i, some j => decide (i < j)
         | _, _ => false)) = true
      · simp [brandLoop, hskip, h1, pageOffsets_cons_save, ih _ _ hbt]
      · by_cases h2 : ((some s2 == rSub r) && (some b1 == rBrand r)) = true
        · simp [brandLoop, hskip, h1, h2, pageOffsets_append, ih _ _ hbt, hf]
        · simp [brandLoop, hskip, h1, h2, pageOffsets_append, ih _ _ hbt, hf]
    · simp [brandLoop, hskip, pageOffsets_append, ih _ _ hbt, hf]

theorem brandLoop_pageOffsets_foreign (env : Env) (cat : String)
    (r : Option Resume) (s2 : String) (blAll : List String) (s b : String)
    (hs : ¬ (s2 = s)) :
    ∀ l skip st, pageOffsets (brandLoop env cat r s2 blAll l skip st).1 s b = [] := by
  intro l
  induction l with
  | nil => intro skip st; rfl
  | cons b1 t ih =>
    intro skip st
    have hf : ∀ n p st1, pageOffsets (processBrand env cat s2 b1 n p st1).1 s b = [] :=
      fun n p st1 =>
        processBrand_pageOffsets_foreign env cat s2 b1 n p st1 s b
          (fun hc => hs hc.1)
    by_cases hskip : skip = true
    · by_cases h1 : ((some s2 == rSub r) && (some b1 != rBrand r) &&
        (match idxOf blAll b1, (rBrand r).bind (idxOf blAll) with
         | some i, some j => decide (i < j)
         | _, _ => false)) = true
      · simp [brandLoop, hskip, h1, pageOffsets_cons_save, ih]
      · by_cases h2 : ((some s2 == rSub r) && (some b1 == rBrand r)) = true
        · simp [brandLoop, hskip, h1, h2, pageOffsets_append, ih, hf]
        · simp [brandLoop, hskip, h1, h2, pageOffsets_append, ih, hf]
    · simp [brandLoop, hskip, pageOffsets_append, ih, hf]

theorem subLoop_pageOffsets_foreign (env : Env) (cat : String)
    (r : Option Resume) (s b : String) :
    ∀ wl skip st, (∀ e ∈ wl, ¬ (e.1 = s)) →
      pageOffsets (subLoop env cat r wl skip st).1 s b = [] := by
  intro wl
  induction wl with
  | nil => intro skip st _; rfl
  | cons e t ih =>
    intro skip st h
    obtain ⟨s2, bl⟩ := e
    have hs2 : ¬ (s2 = s) := h (s2, bl) (by simp)
    have ht : ∀ e2 ∈ t, ¬ (e2.1 = s) := fun e2 he2 => h e2 (by simp [he2])
    by_cases hg : (skip && (some s2 != rSub r)) = true
    · simp [subLoop, hg, ih _ _ ht]
    · simp [subLoop, hg, pageOffsets_append, ih _ _ ht,
        brandLoop_pageOffsets_foreign env cat r s2 bl s b hs2]

theorem subLoop_fresh_noProvider (env : Env) (cat : String)
    (r : Option Resume) (q : String → String → Bool) :
    ∀ wl skip st, (∀ e ∈ wl, ∀ b2, q e.1 b2 = false) →
      noProviderEventsFor (subLoop env cat r wl skip st).1 q = true := by
  intro wl
  induction wl with
  | nil => intro skip st _; rfl
  | cons e t ih =>
    intro skip st h
    obtain ⟨s2, bl⟩ := e
    have hs2 : ∀ b2, q s2 b2 = false := h (s2, bl) (by simp)
    have ht : ∀ e2 ∈ t, ∀ b2, q e2.1 b2 = false :=
      fun e2 he2 => h e2 (by simp [he2])
    have hbl : ∀ l skip2 st2,
        noProviderEventsFor (brandLoop env cat r s2 bl l skip2 st2).1 q = true := by
      intro l
      induction l with
      | nil => intro skip2 st2; rfl
      | cons b1 t2 ih2 =>
        intro skip2 st2
        have hf : ∀ n p st1,
            noProviderEventsFor (processBrand env cat s2 b1 n p st1).1 q = true :=
          fun n p st1 => processBrand_noProvider env cat s2 b1 n p st1 q (hs2 b1)
        by_cases hskip : skip2 = true
        · by_cases h1 : ((some s2 == rSub r) && (some b1 != rBrand r) &&
            (match idxOf bl b1, (rBrand r).bind (idxOf bl) with
             | some i, some j => decide (i < j)
             | _, _ => false)) = true
          · simp [brandLoop, hskip, h1, noProviderEventsFor_cons_save, ih2]
          · by_cases h2 : ((some s2 == rSub r) && (some b1 == rBrand r)) = true
            · simp [brandLoop, hskip, h1, h2, noProviderEventsFor_append, ih2, hf]
            · simp [brandLoop, hskip, h1, h2, noProviderEventsFor_append, ih2, hf]
        · simp [brandLoop, hskip, noProviderEventsFor_append, ih2, hf]
    by_cases hg : (skip && (some s2 != rSub r)) = true
    · simp [subLoop, hg, ih _ _ ht]
    · simp [subLoop, hg, noProviderEventsFor_append, ih _ _ ht, hbl]

theorem subLoop_pre_skip (env : Env) (cat : String) (r : Option Resume)
    (S : String) (hrs : rSub r = some S) :
    ∀ (pre rest : List (String × List String)) st, (∀ e ∈ pre, ¬ (e.1 = S)) →
      subLoop env cat r (pre ++ rest) true st = subLoop env cat r rest true st := by
  intro pre
  induction pre with
  | nil => intro rest st _; rfl
  | cons e t ih =>
    intro rest st h
    obtain ⟨s2, bl⟩ := e
    have hs2 : ¬ (s2 = S) := h (s2, bl) (by simp)
    have ht : ∀ e2 ∈ t, ¬ (e2.1 = S) := fun e2 he2 => h e2 (by simp [he2])
    have hg : (true && (some s2 != rSub r)) = true := by
      simp [hrs, hs2]
    simp [subLoop, hg, ih rest st ht]

theorem brandLoop_resume (env : Env) (cat : String) (r : Option Resume)
    (S B : String) (bpre bpost : List String)
    (hrs : rSub r = some S) (hrb : rBrand r = some B)
    (hnd : (bpre ++ B :: bpost).Nodup)
    (q : String → String → Bool) (hqB : q S B = false)
    (hqpost : ∀ b2 ∈ bpost, q S b2 = false) :
    ∀ l st, (∀ x ∈ l, x ∈ bpre) →
      noProviderEventsFor
        (brandLoop env cat r S (bpre ++ B :: bpost) (l ++ B :: bpost) true st).1 q
        = true ∧
      (pageOffsets
        (brandLoop env cat r S (bpre ++ B :: bpost) (l ++ B :: bpost) true st).1
        S B).head?.all (fun o => o == rStart r) = true ∧
      Ev.probe S B 0 ∈
        (brandLoop env cat r S (bpre ++ B :: bpost) (l ++ B :: bpost) true st).1 ∧
      (brandLoop env cat r S (bpre ++ B :: bpost) (l ++ B :: bpost) true st).2.2
        = false := by
  have hBpre : B ∉ bpre := by
    intro hc
    have := List.disjoint_of_nodup_append hnd hc (by simp)
    exact this
  have hBpost : B ∉ bpost := by
    have h2 : (B :: bpost).Nodup := (List.nodup_append.mp hnd).2.1
    exact (List.nodup_cons.mp h2).1
  intro l
  induction l with
  | nil =>
    intro st _
    have h1 : ((some S == rSub r) && (some B != rBrand r) &&
        (match idxOf (bpre ++ B :: bpost) B,
          (rBrand r).bind (idxOf (bpre ++ B :: bpost)) with
         | some i, some j => decide (i < j)
         | _, _ => false)) = false := by
      simp [hrb]
    have h2 : ((some S == rSub r) && (some B == rBrand r)) = true := by
      simp [hrs, hrb]
    have hred1 : (brandLoop env cat r S (bpre ++ B :: bpost)
        ([] ++ B :: bpost) true st).1 =
        (processBrand env cat S B (rStart r) (rPage r) st).1 ++
          (brandLoop env cat r S (bpre ++ B :: bpost) bpost false
            (processBrand env cat S B (rStart r) (rPage r) st).2).1 := by
      simp [brandLoop, h1, h2]
    have hred2 : (brandLoop env cat r S (bpre ++ B :: bpost)
        ([] ++ B :: bpost) true st).2.2 =
        (brandLoop env cat r S (bpre ++ B :: bpost) bpost false
          (processBrand env cat S B (rStart r) (rPage r) st).2).2.2 := by
      simp [brandLoop, h1, h2]
    refine ⟨?_, ?_, ?_, ?_⟩
    · rw [hred1, noProviderEventsFor_append, Bool.and_eq_true]
      exact ⟨processBrand_noProvider env cat S B (rStart r) (rPage r) st q hqB,
        brandLoop_fresh_noProvider env cat r S (bpre ++ B :: bpost) q bpost _
          hqpost⟩
    · rw [hred1, pageOffsets_append]
      rw [brandLoop_pageOffsets_foreignBrand env cat r S (bpre ++ B :: bpost) B
        bpost false _ hBpost]
      rw [List.append_nil]
      exact processBrand_pages_head env cat S B (rStart r) (rPage r) st
    · rw [hred1]
      exact List.mem_append_left _
        (processBrand_probe env cat S B (rStart r) (rPage r) st)
    · rw [hred2]
      exact brandLoop_skip_false env cat r S (bpre ++ B :: bpost) bpost _
  | cons x l2 ih =>
    intro st hx
    have hxB : x ∈ bpre := hx x (by simp)
    have hxne : ¬ (x = B) := fun hc => hBpre (hc ▸ hxB)
    obtain ⟨i, hi, hilt⟩ := idxOf_append_of_mem x bpre (B :: bpost) hxB
    have hmid := idxOf_middle B bpre bpost hBpre
    have h1 : ((some S == rSub r) && (some x != rBrand r) &&
        (match idxOf (bpre ++ B :: bpost) x,
          (rBrand r).bind (idxOf (bpre ++ B :: bpost)) with
         | some i, some j => decide (i < j)
         | _, _ => false)) = true := by
      rw [hrs, hrb]
      simp [hi, hmid, hxne, hilt]
    have hred1 : (brandLoop env cat r S (bpre ++ B :: bpost)
        ((x :: l2) ++ B :: bpost) true st).1 =
        Ev.save st.ck ::
          (brandLoop env cat r S (bpre ++ B :: bpost) (l2 ++ B :: bpost) true
            { st with ckFile := some st.ck }).1 := by
      simp [brandLoop, h1]
    have hred2 : (brandLoop env cat r S (bpre ++ B :: bpost)
        ((x :: l2) ++ B :: bpost) true st).2.2 =
        (brandLoop env cat r S (bpre ++ B :: bpost) (l2 ++ B :: bpost) true
          { st with ckFile := some st.ck }).2.2 := by
      simp [brandLoop, h1]
    obtain ⟨iha, ihb, ihc, ihd⟩ := ih { st with ckFile := some st.ck }
      (fun y hy => hx y (by simp [hy]))
    refine ⟨?_, ?_, ?_, ?_⟩
    · rw [hred1, noProviderEventsFor_cons_save]
      exact iha
    · rw [hred1, pageOffsets_cons_save]
      exact ihb
    · rw [hred1]
      exact List.mem_cons_of_mem _ ihc
    · rw [hred2]
      exact ihd

theorem contains_eq_false_of_not_mem (L : List String) (y : String)
    (hy : y ∉ L) : L.contains y = false := by
  by_contra hc
  have h2 : L.contains y = true := by revert hc; cases L.contains y <;> simp
  exact hy (List.mem_of_elem_eq_true h2)

theorem subLoop_resume (env : Env) (cat : String) (r : Option Resume)
    (pre post : List (String × List String)) (S B : String)
    (bpre bpost : List String)
    (hrs : rSub r = some S) (hrb : rBrand r = some B)
    (hk : ((pre ++ (S, bpre ++ B :: bpost) :: post).map Prod.fst).Nodup)
    (hnd : (bpre ++ B :: bpost).Nodup) (st : CSt) :
    noProviderEventsFor
      (subLoop env cat r (pre ++ (S, bpre ++ B :: bpost) :: post) true st).1
      (precedesUnit pre S bpre) = true ∧
    (pageOffsets
      (subLoop env cat r (pre ++ (S, bpre ++ B :: bpost) :: post) true st).1
      S B).head?.all (fun o => o == rStart r) = true ∧
    Ev.probe S B 0 ∈
      (subLoop env cat r (pre ++ (S, bpre ++ B :: bpost) :: post) true st).1 := by
  simp only [List.map_append, List.map_cons] at hk
  rw [List.nodup_append] at hk
  obtain ⟨hkpre, hkrest, hkdisj⟩ := hk
  have hSpre : S ∉ pre.map Prod.fst := fun hc => hkdisj hc (by simp)
  have hpostpre : ∀ y ∈ post.map Prod.fst, y ∉ pre.map Prod.fst :=
    fun y hy hc => hkdisj hc (by simp [hy])
  have hpostS : ∀ y ∈ post.map Prod.fst, ¬ (y = S) := by
    intro y hy hc
    have := (List.nodup_cons.mp hkrest).1
    exact this (hc ▸ hy)
  have hBpre : B ∉ bpre := fun hc =>
    List.disjoint_of_nodup_append hnd hc (by simp)
  have hpostpre2 : ∀ b2 ∈ bpost, b2 ∉ bpre := by
    intro b2 hb2 hc
    exact List.disjoint_of_nodup_append hnd hc (by simp [hb2])
  have hpre : ∀ e ∈ pre, ¬ (e.1 = S) := by
    intro e he hc
    exact hSpre (hc ▸ List.mem_map_of_mem Prod.fst he)
  have hqB : precedesUnit pre S bpre S B = false := by
    simp only [precedesUnit]
    rw [contains_eq_false_of_not_mem _ _ hSpre,
      contains_eq_false_of_not_mem _ _ hBpre]
    simp
  have hqpost : ∀ b2 ∈ bpost, precedesUnit pre S bpre S b2 = false := by
    intro b2 hb2
    simp only [precedesUnit]
    rw [contains_eq_false_of_not_mem _ _ hSpre,
      contains_eq_false_of_not_mem _ _ (hpostpre2 b2 hb2)]
    simp
  rw [subLoop_pre_skip env cat r S hrs pre _ st hpre]
  have hg : (true && (some S != rSub r)) = false := by simp [hrs]
  obtain ⟨bla, blb, blc, bld⟩ := brandLoop_resume env cat r S B bpre bpost hrs
    hrb hnd (precedesUnit pre S bpre) hqB hqpost bpre st (fun x h => h)
  have hred : (subLoop env cat r ((S, bpre ++ B :: bpost) :: post) true st).1 =
      (brandLoop env cat r S (bpre ++ B :: bpost) (bpre ++ B :: bpost) true
        st).1 ++
      (subLoop env cat r post
        (brandLoop env cat r S (bpre ++ B :: bpost) (bpre ++ B :: bpost) true
          st).2.2
        (brandLoop env cat r S (bpre ++ B :: bpost) (bpre ++ B :: bpost) true
          st).2.1).1 := by
    simp [subLoop, hg]
  refine ⟨?_, ?_, ?_⟩
  · rw [hred, noProviderEventsFor_append, Bool.and_eq_true]
    constructor
    · exact bla
    · refine subLoop_fresh_noProvider env cat r (precedesUnit pre S bpre)
        post _ _ ?_
      intro e he b2
      have he1 : e.1 ∈ post.map Prod.fst := List.mem_map_of_mem Prod.fst he
      have h1 : (pre.map Prod.fst).contains e.1 = false :=
        contains_eq_false_of_not_mem _ _ (hpostpre e.1 he1)
      have h2 : ¬ (e.1 = S) := hpostS e.1 he1
      simp only [precedesUnit]
      rw [h1]
      simp [h2]
  · rw [hred, pageOffsets_append]
    rw [subLoop_pageOffsets_foreign env cat r S B post _ _ ?_]
    · rw [List.append_nil]
      exact blb
    · intro e2 he2
      exact hpostS e2.1 (List.mem_map_of_mem Prod.fst he2)
  · rw [hred]
    exact List.mem_append_left _ blc

/-- C1 amended. Resume exactness as the code implements it: for every work
list of shape pre ++ (S, bpre ++ B :: bpost) :: post with distinct
subcategories and distinct brands, and a checkpoint for (S, B) at offset N
whose sheet matches, the resumed run performs no provider request at all
(neither probe nor page) for any unit preceding (S, B) - earlier
subcategories, and earlier brands of S by list index - and the first page
request for (S, B), when any is made, uses offset exactly N. What the
counterexample forces out of the original claim: the unit's reconnaissance
probe at offset 0 is not skipped, so the first provider request of (S, B) is
the probe at offset 0, not a fetch at N; exactness holds of the page requests. -/
theorem resume_exactness_amended_thm (env : Env) (sheet cat : String)
    (pre post : List (String × List String)) (S B : String)
    (bpre bpost : List String) (N P : Nat) (creds : Creds)
    (db0 : List UrlRow) (ckf0 : Option Ckpt)
    (hk : ((pre ++ (S, bpre ++ B :: bpost) :: post).map Prod.fst).Nodup)
    (hnd : (bpre ++ B :: bpost).Nodup) :
    resumeExactnessAmended
      (crawl env sheet cat (pre ++ (S, bpre ++ B :: bpost) :: post)
        (some { sheet := sheet, subcategory := some S, brand := some B,
                start := N, page_num := P }) creds db0 ckf0).1
      pre S bpre B N = true := by
  by_cases hcred : credsOk creds = true
  · simp only [crawl, hcred, Bool.not_true, Bool.false_eq_true, if_false,
      Option.isSome_some, resumeExactnessAmended]
    rw [Bool.and_eq_true]
    constructor
    · exact (subLoop_resume env cat
        (some { sheet := sheet, subcategory := some S, brand := some B,
                start := N, page_num := P })
        pre post S B bpre bpost rfl rfl hk hnd _).1
    · exact (subLoop_resume env cat
        (some { sheet := sheet, subcategory := some S, brand := some B,
                start := N, page_num := P })
        pre post S B bpre bpost rfl rfl hk hnd _).2.1
  · simp only [crawl]
    rw [if_pos (by simp [hcred])]
    rfl

/-- Witness for C1 amended on the spec's example scenario. -/
theorem resume_exactness_amended_witness :
    resumeExactnessAmended trDemo [] "Shoes" ["Nike"] "Adidas" 20 = true :=
  resume_exactness_amended_thm envDemo "S1" "Cat" [] [] "Shoes" "Adidas"
    ["Nike"] [] 20 2 credsSome [] Option.none (by decide) (by decide)

/-- C1 counterexample. On the spec's own example (work list Shoes ->
[Nike, Adidas], checkpoint Shoes/Adidas at start 20), the first provider
request issued for the resumed unit is the reconnaissance probe at offset 0,
not a fetch at offset 20, so the claim that the resumed run's first provider
fetch for (S, B) uses offset exactly N is false as stated. -/
theorem resume_exactness_counterexample :
    resumeExactness trDemo [] "Shoes" ["Nike"] "Adidas" 20 = false := by decide

/-- C2 amended. For the resumed unit the reconnaissance probe at offset 0 is
performed - it is not skipped, contrary to the claim - while the resumed
startOffset is indeed never silently reset: the first page request for the
resumed unit, when any is made, uses exactly the checkpoint's offset N. -/
theorem probe_performed_start_kept_thm (env : Env) (sheet cat : String)
    (pre post : List (String × List String)) (S B : String)
    (bpre bpost : List String) (N P : Nat) (creds : Creds)
    (db0 : List UrlRow) (ckf0 : Option Ckpt)
    (hk : ((pre ++ (S, bpre ++ B :: bpost) :: post).map Prod.fst).Nodup)
    (hnd : (bpre ++ B :: bpost).Nodup) (hcred : credsOk creds = true) :
    probeDoneAndStartKept
      (crawl env sheet cat (pre ++ (S, bpre ++ B :: bpost) :: post)
        (some { sheet := sheet, subcategory := some S, brand := some B,
                start := N, page_num := P }) creds db0 ckf0).1
      S B N = true := by
  simp only [crawl, hcred, Bool.not_true, Bool.false_eq_true, if_false,
    Option.isSome_some, probeDoneAndStartKept]
  rw [Bool.and_eq_true]
  constructor
  · exact List.elem_eq_true_of_mem ((subLoop_resume env cat
      (some { sheet := sheet, subcategory := some S, brand := some B,
              start := N, page_num := P })
      pre post S B bpre bpost rfl rfl hk hnd _).2.2)
  · exact (subLoop_resume env cat
      (some { sheet := sheet, subcategory := some S, brand := some B,
              start := N, page_num := P })
      pre post S B bpre bpost rfl rfl hk hnd _).2.1

/-- Witness for C2 amended on the spec's example scenario. -/
theorem probe_performed_start_kept_witness :
    probeDoneAndStartKept trDemo "Shoes" "Adidas" 20 = true :=
  probe_performed_start_kept_thm envDemo "S1" "Cat" [] [] "Shoes" "Adidas"
    ["Nike"] [] 20 2 credsSome [] Option.none (by decide) (by decide) rfl

/-- C2 counterexample. On the spec's example scenario the trace of the
resumed run contains the probe request for the resumed unit (Shoes, Adidas) at
offset 0, so the claim that the PROBE call is skipped for the resumed unit is
false as stated. -/
theorem probe_skipped_counterexample :
    probeSkippedAndStartKept trDemo "Shoes" "Adidas" 20 = false := by decide

end Catawiki
